import Mathlib

/-!
# Shallow embedding of the SmartBuffer class (src/src/index.ts)

The TypeScript class is a growable dual-cursor byte buffer.  We model:

* the byte store as a `List Nat` (each entry is a byte value `< 256`;
  Node's `Buffer` is a `Uint8Array`: reading out of bounds yields
  `undefined`, which behaves as `0` in the bitwise/arithmetic contexts
  the class uses, and writing out of bounds is a no-op);
* the two cursors `roffset`/`woffset` and explicit numeric arguments as
  `Int` (they are JavaScript numbers holding integers; the class lets
  cursors become negative or out of range, which must be representable);
* `x >>> 0` as `toUint32`, `x | 0` as `toInt32`;
* thrown errors as an explicit error value.  JavaScript exceptions do not
  roll back state, so operations return the error *together with* the
  state at the moment of the throw.

The `typeof`/integrality argument checks of the source are statically
satisfied by this embedding (all modelled arguments are integers), so
only the range/value checks appear.
-/

namespace SmartBufferSpec

/-- JavaScript `x >>> 0` (ToUint32) on an integer-valued number. -/
def toUint32 (i : Int) : Nat := (i % (2 ^ 32 : Int)).toNat

/-- JavaScript `x | 0` (ToInt32) on an integer-valued number. -/
def toInt32 (i : Int) : Int :=
  let m := i % (2 ^ 32 : Int)
  if m < 2 ^ 31 then m else m - 2 ^ 32

/-- Read `buffer[i]` from a `Uint8Array`-backed store: out-of-bounds and
negative indices yield `undefined`, which coerces to `0` in the bitwise
contexts the class uses it in. -/
def getByte (s : List Nat) (i : Int) : Nat :=
  if i < 0 then 0 else s.getD i.toNat 0

/-- Write `buffer[i] = b` into a `Uint8Array`-backed store: out-of-bounds
and negative indices are ignored. -/
def setByte (s : List Nat) (i : Int) (b : Nat) : List Nat :=
  if i < 0 then s else s.set i.toNat b

/-- Thrown errors.  `truncated` models `new Error("Truncated")` carrying the
`truncated` marker property (readVarint32). -/
inductive JsError where
  | typeError (msg : String)
  | rangeError (msg : String)
  | truncated
  deriving Repr, DecidableEq

/-- The buffer state: backing store, the two cursors and the per-instance
`noAssert` flag. -/
structure SB where
  store : List Nat
  roffset : Int
  woffset : Int
  noAssert : Bool
  deriving Repr, DecidableEq

/-! ## Capacity manager (§4.2)

`resize(capacity)` (src/src/index.ts:1929): under assertions, `capacity |= 0`
and negative capacities throw; then, if the store is smaller, a new store of
exactly `capacity` bytes is allocated (`Buffer.allocUnsafe`, modelled
zero-filled) and the old bytes are copied to its front. -/

def SB.resize (bb : SB) (capacity : Int) : Except JsError Unit × SB :=
  if !bb.noAssert then
    let c := toInt32 capacity
    if c < 0 then (.error (.typeError "Not valid capacity value"), bb)
    else if (bb.store.length : Int) < c then
      (.ok (), { bb with store := bb.store ++ List.replicate (c.toNat - bb.store.length) 0 })
    else (.ok (), bb)
  else
    if (bb.store.length : Int) < capacity then
      (.ok (), { bb with store := bb.store ++ List.replicate (capacity.toNat - bb.store.length) 0 })
    else (.ok (), bb)

/-- `ensureCapacity(capacity)` (src/src/index.ts:1800): if the current
capacity (`let current = this.buffer.length`, inlined here) is smaller,
resize to double the current capacity, or to the required capacity if
doubling still falls short. -/
def SB.ensureCapacity (bb : SB) (capacity : Int) : Except JsError Unit × SB :=
  if (bb.store.length : Int) < capacity then
    bb.resize (if (2 * bb.store.length : Int) > capacity then (2 * bb.store.length : Int)
      else capacity)
  else (.ok (), bb)

/-- The growth step inlined before every write (e.g. src/src/index.ts:1060-1064):
`offset += size; let capacity = this.buffer.length; if (offset > capacity)
this.resize(capacity * 2 > offset ? capacity * 2 : offset);`.
`endOffset` is the already-incremented offset. -/
def growForWrite (bb : SB) (endOffset : Int) : Except JsError Unit × SB :=
  if endOffset > (bb.store.length : Int) then
    bb.resize (if (2 * bb.store.length : Int) > endOffset then (2 * bb.store.length : Int) else endOffset)
  else (.ok (), bb)

/-! ## Varint + zig-zag codec (§4.4) -/

/-- `calculateVarint32` (src/src/index.ts:2417): `value = value >>> 0` then
magnitude thresholds. -/
def calculateVarint32 (value : Int) : Nat :=
  let v := toUint32 value
  if v < 2 ^ 7 then 1
  else if v < 2 ^ 14 then 2
  else if v < 2 ^ 21 then 3
  else if v < 2 ^ 28 then 4
  else 5

/-- `zigZagEncode32` (src/src/index.ts:2437): `(((n |= 0) << 1) ^ (n >> 31)) >>> 0`.
`n >> 31` arithmetically shifts the int32 `n`, giving `-1` when `n` is
negative and `0` otherwise; the xor and final `>>> 0` are computed on the
unsigned 32-bit representations. -/
def zigZagEncode32 (n : Int) : Int :=
  let m := toInt32 n
  ((toUint32 (toInt32 (m * 2))) ^^^ (toUint32 (if m < 0 then -1 else 0)) : Nat)

/-- `zigZagDecode32` (src/src/index.ts:2447): `((n >>> 1) ^ -(n & 1)) | 0`. -/
def zigZagDecode32 (n : Int) : Int :=
  let u := toUint32 n
  toInt32 (((u >>> 1) ^^^ (toUint32 (-((u % 2 : Nat) : Int))) : Nat) : Int)

/-- The byte-emitting loop of `writeVarint32` (src/src/index.ts:1066-1072):
`value >>>= 0; while (value >= 0x80) { buffer[offset++] = (value & 0x7f) | 0x80;
value >>>= 7; } buffer[offset++] = value;`.  Returns the store and the
offset after the final byte. -/
def writeVarintLoop (s : List Nat) (offset : Int) (value : Nat) : List Nat × Int :=
  if h : value ≥ 0x80 then
    writeVarintLoop (setByte s offset ((value &&& 0x7f) ||| 0x80)) (offset + 1) (value >>> 7)
  else (setByte s offset value, offset + 1)
termination_by value
decreasing_by
  rw [Nat.shiftRight_eq_div_pow]
  exact Nat.div_lt_self (by omega) (by norm_num)

/-- The scanning loop of `readVarint32` (src/src/index.ts:1115-1126):
a do-while that, per iteration, first checks `!noAssert && offset > buffer.length`
(the "Truncated" guard), then reads `b = buffer[offset++]`, folds the low
7 bits into `value` for the first 5 groups only, and continues while
`b & 0x80` is set.  Returns `(value, offset after, count)`. -/
def readVarintLoop (noAssert : Bool) (s : List Nat) (offset : Int) (c : Nat) (value : Nat) :
    Except JsError (Nat × Int × Nat) :=
  if !noAssert && offset > (s.length : Int) then .error .truncated
  else
    let b := getByte s offset
    let value1 := if c < 5 then value ||| ((b &&& 0x7f) <<< (7 * c)) else value
    if h : b &&& 0x80 ≠ 0 then readVarintLoop noAssert s (offset + 1) (c + 1) value1
    else .ok (value1, offset + 1, c + 1)
termination_by (s.length + 1) - offset.toNat
decreasing_by
  have hb : getByte s offset ≠ 0 := by
    intro h0
    have h2 : getByte s offset &&& 128 ≠ 0 := h
    rw [h0] at h2
    simp at h2
  have h0 : ¬ offset < 0 := by
    intro hneg
    apply hb
    unfold getByte
    rw [if_pos hneg]
  have h1 : offset.toNat < s.length := by
    by_contra hge
    apply hb
    unfold getByte
    rw [if_neg h0]
    exact List.getD_eq_default _ _ (by omega)
  omega

/-- The part of `writeVarint32` following its assertion block
(src/src/index.ts:1058-1077): size computation, inline growth, the byte loop,
and the relative/absolute return convention.  The source inlines this after
the checks; it is a named continuation here. -/
def SB.writeVarint32Body (bb : SB) (v o : Int) (relative : Bool) :
    Except JsError (Option Nat) × SB :=
  match growForWrite bb (o + (calculateVarint32 v : Nat)) with
  | (.error e, bb1) => (.error e, bb1)
  | (.ok _, bb1) =>
    if relative then
      (.ok none, SB.mk (writeVarintLoop bb1.store o (toUint32 v)).1 bb1.roffset
        (writeVarintLoop bb1.store o (toUint32 v)).2 bb1.noAssert)
    else (.ok (some (calculateVarint32 v)),
      SB.mk (writeVarintLoop bb1.store o (toUint32 v)).1 bb1.roffset bb1.woffset bb1.noAssert)

/-- `writeVarint32(value, offset)` (src/src/index.ts:1040).  `offset = none`
is the relative call (offset omitted).  Under assertions: `value |= 0`,
`offset >>>= 0`, then the range check; the inline growth step precedes the
byte loop; a relative call finally sets `woffset` to the post-loop offset and
returns `this` (modelled `none`), an absolute call returns the size. -/
def SB.writeVarint32 (bb : SB) (value : Int) (offset? : Option Int) :
    Except JsError (Option Nat) × SB :=
  let relative := offset?.isNone
  let offset : Int := offset?.getD bb.woffset
  let checked : Except JsError (Int × Int) :=
    if !bb.noAssert then
      let v := toInt32 value
      let o : Int := toUint32 offset
      if o + 0 > (bb.store.length : Int) then .error (.rangeError "Illegal offset")
      else .ok (v, o)
    else .ok (value, offset)
  match checked with
  | .error e => (.error e, bb)
  | .ok (v, o) => bb.writeVarint32Body v o relative

/-- `writeVarint32ZigZag(value, offset)` (src/src/index.ts:1087). -/
def SB.writeVarint32ZigZag (bb : SB) (value : Int) (offset? : Option Int) :
    Except JsError (Option Nat) × SB :=
  bb.writeVarint32 (zigZagEncode32 value) offset?

/-- The part of `readVarint32` following its assertion block
(src/src/index.ts:1112-1132): the scan loop, the `value |= 0` coercion and
the relative/absolute return convention.  The source inlines this after the
checks; it is a named continuation here. -/
def SB.readVarint32Body (bb : SB) (o : Int) (relative : Bool) :
    Except JsError (Int × Option Nat) × SB :=
  match readVarintLoop bb.noAssert bb.store o 0 0 with
  | .error e => (.error e, bb)
  | .ok (value, oEnd, c) =>
    if relative then (.ok (toInt32 (value : Int), none), { bb with roffset := oEnd })
    else (.ok (toInt32 (value : Int), some c), bb)

/-- `readVarint32(offset)` (src/src/index.ts:1098).  A relative call returns
the plain value and advances `roffset`; an absolute call returns
`{ value, length }` (modelled by `some length`). -/
def SB.readVarint32 (bb : SB) (offset? : Option Int) :
    Except JsError (Int × Option Nat) × SB :=
  let relative := offset?.isNone
  let offset : Int := offset?.getD bb.roffset
  let checked : Except JsError Int :=
    if !bb.noAssert then
      let o : Int := toUint32 offset
      if o + 1 > (bb.store.length : Int) then .error (.rangeError "Illegal offset")
      else .ok o
    else .ok offset
  match checked with
  | .error e => (.error e, bb)
  | .ok o => bb.readVarint32Body o relative

/-- `readVarint32ZigZag(offset)` (src/src/index.ts:1142): reads a varint32 and
zig-zag decodes the value component of the result. -/
def SB.readVarint32ZigZag (bb : SB) (offset? : Option Int) :
    Except JsError (Int × Option Nat) × SB :=
  match bb.readVarint32 offset? with
  | (.ok (v, len?), bb1) => (.ok (zigZagDecode32 v, len?), bb1)
  | (.error e, bb1) => (.error e, bb1)

/-! ## Pure model of the varint byte sequence (used in proofs and in
`bufferCopy` below) -/

/-- The byte sequence `writeVarint32`'s loop emits for the unsigned value `u`:
7-bit little-endian groups, continuation bit on every byte but the last. -/
def varintBytes (u : Nat) : List Nat :=
  if h : u ≥ 0x80 then ((u &&& 0x7f) ||| 0x80) :: varintBytes (u >>> 7)
  else [u]
termination_by u
decreasing_by
  rw [Nat.shiftRight_eq_div_pow]
  exact Nat.div_lt_self (by omega) (by norm_num)

/-- Sequential byte overwrite starting at index `j` (the effect of a
`buffer[offset++] = b` loop); writes past the end of `s` are dropped, as on
a `Uint8Array`. -/
def writeList (s : List Nat) (j : Nat) (l : List Nat) : List Nat :=
  match l with
  | [] => s
  | b :: bs => writeList (s.set j b) (j + 1) bs

/-- `Buffer#copy(target, targetStart, sourceStart, sourceEnd)` (host byte
store collaborator): copies the bytes of `[sourceStart, sourceEnd)`, clamped
to the source, into the target starting at `targetStart`, stopping at the
target's end. -/
def bufferCopy (dst : List Nat) (dstStart : Int) (src : List Nat)
    (srcStart srcEnd : Int) : List Nat :=
  if dstStart < 0 ∨ srcStart < 0 then dst
  else writeList dst dstStart.toNat
    ((src.drop srcStart.toNat).take (srcEnd.toNat - srcStart.toNat))

/-! ## Fixed-width codec plumbing (§4.3) -/

/-- `_checkRead(offset, bytes)` (src/src/index.ts:957): a relative call
(offset omitted) advances `roffset` by `bytes` *before* the range check
runs, so a failing relative read has already moved the cursor. -/
def SB.checkRead (bb : SB) (offset? : Option Int) (bytes : Nat) :
    Except JsError Int × SB :=
  let offset := offset?.getD bb.roffset
  let bb1 := if offset?.isNone then { bb with roffset := bb.roffset + bytes } else bb
  if !bb.noAssert ∧ (offset < 0 ∨ offset + bytes > (bb.store.length : Int)) then
    (.error (.rangeError "Illegal offset"), bb1)
  else (.ok offset, bb1)

/-- `_checkWrite(value, offset, bytes)` (src/src/index.ts:973): a relative
call advances `woffset` by `bytes` before the checks; `offset >>>= 0` always
runs; after the checks the store is grown for `offset + bytes`.  Returns the
coerced offset (`result`). -/
def SB.checkWrite (bb : SB) (offset? : Option Int) (bytes : Nat) :
    Except JsError Nat × SB :=
  let offset := offset?.getD bb.woffset
  let bb1 := if offset?.isNone then { bb with woffset := bb.woffset + bytes } else bb
  let result := toUint32 offset
  if !bb.noAssert ∧ ((result : Int) < 0 ∨ (result : Int) + 0 > (bb.store.length : Int)) then
    (.error (.rangeError "Illegal offset"), bb1)
  else
    match growForWrite bb1 ((result : Int) + bytes) with
    | (.error e, bb2) => (.error e, bb2)
    | (.ok _, bb2) => (.ok result, bb2)

/-- `readInt8(offset)` (src/src/index.ts:203): `_checkRead`, read the byte,
two's-complement sign extension. -/
def SB.readInt8 (bb : SB) (offset? : Option Int) : Except JsError Int × SB :=
  match bb.checkRead offset? 1 with
  | (.error e, bb1) => (.error e, bb1)
  | (.ok o, bb1) =>
    (.ok (if getByte bb1.store o &&& 0x80 = 0x80
      then -(0xFF - (getByte bb1.store o : Int) + 1) else (getByte bb1.store o : Int)), bb1)

/-- `writeInt8(value, offset)` (src/src/index.ts:647): `value |= 0`,
`_checkWrite`, then `buffer[offset] = value` (the `Uint8Array` store keeps
the value mod 256). -/
def SB.writeInt8 (bb : SB) (value : Int) (offset? : Option Int) :
    Except JsError Unit × SB :=
  match bb.checkWrite offset? 1 with
  | (.error e, bb1) => (.error e, bb1)
  | (.ok o, bb1) =>
    (.ok (), { bb1 with store := setByte bb1.store (o : Int) ((toInt32 value % 256).toNat) })

/-! ## Structural operations (§4.6) -/

/-- `write(source, offset, length, encoding)` (src/src/index.ts:508), for a
SmartBuffer source (string and raw-byte sources are first normalized via
`wrap`; the claims concern SmartBuffer sources, so only that case is
embedded).  `const result = offset >>>= 0` runs before the checks; the
readable length is `source.woffset - source.roffset`; an empty source is a
no-op; growth precedes the copy; the copy always advances the SOURCE's
`roffset`, and only a relative call advances the target's `woffset`. -/
def SB.write (bb : SB) (source : SB) (offset? : Option Int) :
    Except JsError Unit × SB × SB :=
  let relative := offset?.isNone
  let result := toUint32 (offset?.getD bb.woffset)
  if !bb.noAssert ∧ ((result : Int) < 0 ∨ (result : Int) + 0 > (bb.store.length : Int)) then
    (.error (.rangeError "Illegal offset"), bb, source)
  else
    let length := source.woffset - source.roffset
    if length ≤ 0 then (.ok (), bb, source)
    else
      match growForWrite bb ((result : Int) + length) with
      | (.error e, bb1) => (.error e, bb1, source)
      | (.ok _, bb1) =>
        let bb2 := { bb1 with
          store := bufferCopy bb1.store (result : Int) source.store source.roffset
            source.woffset }
        let source2 := { source with roffset := source.roffset + length }
        if relative then (.ok (), { bb2 with woffset := bb2.woffset + length }, source2)
        else (.ok (), bb2, source2)

/-- The no-reallocation tail of `prepend`: copy the source just before
`offset`, exhaust the source's read cursor, and (relatively) pull the
target's `roffset` back by the prepended length. -/
def prependInPlace (bb source : SB) (offset : Int) (relative : Bool) :
    Except JsError Unit × SB × SB :=
  let bb2 := { bb with
    store := bufferCopy bb.store (offset - ((source.store.length : Int) - source.roffset))
      source.store source.roffset (source.store.length : Int) }
  let source2 := { source with roffset := (source.store.length : Int) }
  if relative then
    (.ok (), { bb2 with
      roffset := bb2.roffset - ((source.store.length : Int) - source.roffset) }, source2)
  else (.ok (), bb2, source2)

/-- The reallocation branch of `prepend` (`diff > 0`): allocate
`this.buffer.length + diff` bytes (`allocUnsafe`, modelled zero-filled),
copy `[offset, length)` of the old store to position `len`, shift both
cursors and `offset` right by `diff`, then continue as in the
no-reallocation tail. -/
def prependShifted (bb source : SB) (offset : Int) (relative : Bool) :
    Except JsError Unit × SB × SB :=
  prependInPlace
    (SB.mk
      (bufferCopy
        (List.replicate
          (bb.store.length +
            (((source.store.length : Int) - source.roffset) - offset).toNat) 0)
        ((source.store.length : Int) - source.roffset) bb.store offset
        (bb.store.length : Int))
      (bb.roffset + (((source.store.length : Int) - source.roffset) - offset))
      (bb.woffset + (((source.store.length : Int) - source.roffset) - offset))
      bb.noAssert)
    source
    (offset + (((source.store.length : Int) - source.roffset) - offset))
    relative

/-- The part of `prepend` following its assertion block
(src/src/index.ts:1883-1905), for a SmartBuffer source.  `len` counts from
the source's `roffset` to the end of its backing store; when `diff = len -
offset` is positive, a larger store is allocated, the contents from `offset`
onward are shifted right to position `len`, and BOTH cursors shift right by
`diff` (also for absolute calls); the source is then copied just before
`offset` and the source's `roffset` jumps to the end of its store; a
relative call finally moves `roffset` back by `len`. -/
def SB.prependBody (bb : SB) (source : SB) (offset : Int) (relative : Bool) :
    Except JsError Unit × SB × SB :=
  if (source.store.length : Int) - source.roffset ≤ 0 then (.ok (), bb, source)
  else
    if 0 < ((source.store.length : Int) - source.roffset) - offset then
      prependShifted bb source offset relative
    else
      prependInPlace bb source offset relative

/-- `prepend(source, encoding, offset)` (src/src/index.ts:1865), for a
SmartBuffer source (the encoding juggling for string sources is not
claim-relevant).  Under assertions `offset >>>= 0` then the range check. -/
def SB.prepend (bb : SB) (source : SB) (offset? : Option Int) :
    Except JsError Unit × SB × SB :=
  let relative := offset?.isNone
  let offset0 := offset?.getD bb.roffset
  let checked : Except JsError Int :=
    if !bb.noAssert then
      if (toUint32 offset0 : Int) + 0 > (bb.store.length : Int) then
        .error (.rangeError "Illegal offset")
      else .ok (toUint32 offset0 : Int)
    else .ok offset0
  match checked with
  | .error e => (.error e, bb, source)
  | .ok offset => bb.prependBody source offset relative

/-- `compact(begin, end)` (src/src/index.ts:1677): defaults are `roffset` and
the store length; under assertions both bounds are coerced with `>>> 0` and
range-checked; `begin = 0 ∧ end = capacity` returns unchanged ("already
compacted"); an empty range installs the empty store and zeroes both
cursors; otherwise the `[begin, end)` slice becomes the new store,
`woffset -= roffset` (the OLD `roffset`, not `begin`) and `roffset = 0`. -/
def SB.compact (bb : SB) (begin? end? : Option Int) : Except JsError Unit × SB :=
  let b0 := begin?.getD bb.roffset
  let e0 := end?.getD (bb.store.length : Int)
  let checked : Except JsError (Int × Int) :=
    if !bb.noAssert then
      if (toUint32 b0 : Int) < 0 ∨ (toUint32 b0 : Int) > (toUint32 e0 : Int) ∨
          (toUint32 e0 : Int) > (bb.store.length : Int) then
        .error (.rangeError "Illegal range")
      else .ok ((toUint32 b0 : Int), (toUint32 e0 : Int))
    else .ok (b0, e0)
  match checked with
  | .error e => (.error e, bb)
  | .ok (b, e) =>
    if b = 0 ∧ e = (bb.store.length : Int) then (.ok (), bb)
    else if e - b = 0 then (.ok (), SB.mk [] 0 0 bb.noAssert)
    else (.ok (), SB.mk ((bb.store.drop b.toNat).take (e - b).toNat)
      0 (bb.woffset - bb.roffset) bb.noAssert)

/-! ## C-string codec (§4.5) -/

/-- The scan loop of `readCString` (src/src/index.ts:1414-1419):
`do { if (offset >= buffer.length) throw new RangeError(...); temp =
buffer[offset++]; } while (temp !== 0)`.  Returns the offset just past the
zero byte. -/
def readCStringLoop (s : List Nat) (offset : Int) : Except JsError Int :=
  if h : offset ≥ (s.length : Int) then .error (.rangeError "Index out of range")
  else
    if getByte s offset ≠ 0 then readCStringLoop s (offset + 1)
    else .ok (offset + 1)
termination_by ((s.length : Int) - offset).toNat
decreasing_by
  omega

/-- `readCString(offset)` (src/src/index.ts:1397).  The decoded text is the
UTF-8 collaborator's image (`buffer.toString("utf8", start, offset - 1)`) of
the byte slice this returns; no claim inspects the decoded text, so the raw
slice stands for it. -/
def SB.readCString (bb : SB) (offset? : Option Int) :
    Except JsError (List Nat × Option Nat) × SB :=
  let relative := offset?.isNone
  let offset0 := offset?.getD bb.roffset
  let checked : Except JsError Int :=
    if !bb.noAssert then
      if (toUint32 offset0 : Int) + 1 > (bb.store.length : Int) then
        .error (.rangeError "Illegal offset")
      else .ok (toUint32 offset0 : Int)
    else .ok offset0
  match checked with
  | .error e => (.error e, bb)
  | .ok start =>
    match readCStringLoop bb.store start with
    | .error e => (.error e, bb)
    | .ok oEnd =>
      if relative then
        (.ok ((bb.store.drop start.toNat).take (oEnd - 1 - start).toNat, none),
          { bb with roffset := oEnd })
      else
        (.ok ((bb.store.drop start.toNat).take (oEnd - 1 - start).toNat,
          some (oEnd - start).toNat), bb)

/-- UTF-16 code units → UTF-8 bytes: the host transcoding collaborator
(`Buffer.byteLength(str, "utf8")` / `Buffer#write(str, ..., "utf8")`).
Standard surrogate-pair combining; unpaired surrogates become U+FFFD
(`EF BF BD`), as in Node.  JS strings are modelled as their code-unit
lists. -/
def utf8Encode : List Nat → List Nat
  | [] => []
  | [c] =>
    if c < 0x80 then [c]
    else if c < 0x800 then [0xC0 + c / 64, 0x80 + c % 64]
    else if c < 0xD800 ∨ 0xE000 ≤ c then
      [0xE0 + c / 4096, 0x80 + c / 64 % 64, 0x80 + c % 64]
    else [0xEF, 0xBF, 0xBD]
  | c :: c2 :: rest =>
    if c < 0x80 then c :: utf8Encode (c2 :: rest)
    else if c < 0x800 then (0xC0 + c / 64) :: (0x80 + c % 64) :: utf8Encode (c2 :: rest)
    else if c < 0xD800 ∨ 0xE000 ≤ c then
      (0xE0 + c / 4096) :: (0x80 + c / 64 % 64) :: (0x80 + c % 64) :: utf8Encode (c2 :: rest)
    else if c < 0xDC00 ∧ 0xDC00 ≤ c2 ∧ c2 < 0xE000 then
      (0xF0 + (0x10000 + (c - 0xD800) * 1024 + (c2 - 0xDC00)) / 262144) ::
      (0x80 + (0x10000 + (c - 0xD800) * 1024 + (c2 - 0xDC00)) / 4096 % 64) ::
      (0x80 + (0x10000 + (c - 0xD800) * 1024 + (c2 - 0xDC00)) / 64 % 64) ::
      (0x80 + (0x10000 + (c - 0xD800) * 1024 + (c2 - 0xDC00)) % 64) ::
      utf8Encode rest
    else 0xEF :: 0xBF :: 0xBD :: utf8Encode (c2 :: rest)

/-- `writeCString(str, offset)` (src/src/index.ts:1348): under assertions the
string is scanned for NUL code units (throwing before anything else
happens), then the offset is coerced and range-checked; the UTF-8 bytes and
a terminating zero are written after growing the store. -/
def SB.writeCString (bb : SB) (str : List Nat) (offset? : Option Int) :
    Except JsError (Option Nat) × SB :=
  let relative := offset?.isNone
  let offset0 := offset?.getD bb.woffset
  let checked : Except JsError Int :=
    if !bb.noAssert then
      if str.any (fun c => c = 0) then
        .error (.typeError "Illegal str: Contains NULL-characters")
      else if (toUint32 offset0 : Int) + 0 > (bb.store.length : Int) then
        .error (.rangeError "Illegal offset")
      else .ok (toUint32 offset0 : Int)
    else .ok offset0
  match checked with
  | .error e => (.error e, bb)
  | .ok offset =>
    match growForWrite bb (offset + ((utf8Encode str).length + 1 : Nat)) with
    | (.error e, bb1) => (.error e, bb1)
    | (.ok _, bb1) =>
      if relative then
        (.ok none, SB.mk
          (setByte (bufferCopy bb1.store offset (utf8Encode str) 0
            ((utf8Encode str).length : Nat)) (offset + (utf8Encode str).length) 0)
          bb1.roffset (offset + ((utf8Encode str).length + 1 : Nat)) bb1.noAssert)
      else
        (.ok (some (utf8Encode str).length), SB.mk
          (setByte (bufferCopy bb1.store offset (utf8Encode str) 0
            ((utf8Encode str).length : Nat)) (offset + (utf8Encode str).length) 0)
          bb1.roffset bb1.woffset bb1.noAssert)

/-! ## Debug codec (§4.7) -/

/-- One hex digit, uppercase, as produced by `b.toString(16).toUpperCase()`
for a digit value below 16. -/
def hexDigitChar (n : Nat) : Char :=
  if n < 10 then Char.ofNat (48 + n) else Char.ofNat (55 + n)

/-- The two-character uppercase hex form of a byte: `toDebug` pads a leading
zero for `b < 0x10`, and a `Uint8Array` element is below 256, so every byte
prints as exactly two digits. -/
def byteHex (b : Nat) : List Char := [hexDigitChar (b / 16), hexDigitChar (b % 16)]

/-- The marker `toDebug` (src/src/index.ts:2191, single-column mode) emits
after advancing to position `i`: the if-chain over `roffset`, `woffset` and
`buffer.length`, a plain space when `i` is strictly inside the store and
marks nothing, and nothing at the two string ends. -/
def markerAt (bb : SB) (i : Nat) : List Char :=
  if (i : Int) = bb.roffset ∧ bb.roffset = bb.woffset ∧
      bb.woffset = (bb.store.length : Int) then ['|']
  else if (i : Int) = bb.roffset ∧ bb.roffset = bb.woffset then ['^']
  else if (i : Int) = bb.roffset ∧ bb.roffset = (bb.store.length : Int) then ['[']
  else if (i : Int) = bb.woffset ∧ bb.woffset = (bb.store.length : Int) then [']']
  else if (i : Int) = bb.roffset then ['<']
  else if (i : Int) = bb.woffset then ['>']
  else if i = bb.store.length then ['*']
  else if i ≠ 0 ∧ i ≠ bb.store.length then [' ']
  else []

/-- The byte-emitting rest of `toDebug`'s loop from byte index `i` on: each
byte's two hex digits followed by the marker for the position after it. -/
def toDebugChunks (bb : SB) : List Nat → Nat → List Char
  | [], _ => []
  | b :: rest, i => byteHex b ++ markerAt bb (i + 1) ++ toDebugChunks bb rest (i + 1)

/-- `toDebug()` (src/src/index.ts:2191) in single-column hex mode: the marker
for position 0, then every byte followed by its trailing marker. -/
def toDebug (bb : SB) : List Char := markerAt bb 0 ++ toDebugChunks bb bb.store 0

/-- A hex digit's value (`parseInt` accepts both cases). -/
def hexDigit (c : Char) : Option Nat :=
  if '0' ≤ c ∧ c ≤ '9' then some (c.toNat - 48)
  else if 'a' ≤ c ∧ c ≤ 'f' then some (c.toNat - 87)
  else if 'A' ≤ c ∧ c ≤ 'F' then some (c.toNat - 55)
  else none

/-- `parseInt(<two chars>, 16)`; `none` models `NaN`.  JS parses the longest
digit prefix, so a lone leading digit parses as itself, and the bare base
prefix `"0x"`/`"0X"` gives `NaN`. -/
def parseHexPair (c1 c2 : Char) : Option Nat :=
  if c1 = '0' ∧ (c2 = 'x' ∨ c2 = 'X') then none
  else
    match hexDigit c1 with
    | none => none
    | some h1 =>
      match hexDigit c2 with
      | some h2 => some (16 * h1 + h2)
      | none => some h1

/-- The character loop of `fromDebug` (src/src/index.ts:2604-2692), carried
over the remaining characters and the mutable state `(store, roffset,
woffset, j, rs, hr, hw, hl)`.  The duplicate-marker and require-symbol
checks run only under assertions (`fail` → "Invalid symbol at i"); a hex
pair consumes two characters (`str.charAt` past the end is the empty string,
so a trailing lone character parses alone); `bb.buffer[j++] = b` is an
ignored-out-of-bounds `Uint8Array` write that still increments `j`, and
storing `NaN` puts 0. -/
def fromDebugLoop (na : Bool) : List Char → List Nat → Int → Int → Nat → Bool →
    Bool → Bool → Bool → Except JsError (List Nat × Int × Int × Nat × Bool × Bool × Bool)
  | [], store, ro, wo, j, _rs, hr, hw, hl => .ok (store, ro, wo, j, hr, hw, hl)
  | ch :: rest, store, ro, wo, j, rs, hr, hw, hl =>
    if ch = '|' then
      if !na ∧ (hr ∨ hw ∨ hl) then .error (.rangeError "Invalid symbol")
      else fromDebugLoop na rest store (j : Int) (j : Int) j false
        (hr || !na) (hw || !na) (hl || !na)
    else if ch = ']' then
      if !na ∧ (hw ∨ hl) then .error (.rangeError "Invalid symbol")
      else fromDebugLoop na rest store ro (j : Int) j false hr (hw || !na) (hl || !na)
    else if ch = '^' then
      if !na ∧ (hr ∨ hw) then .error (.rangeError "Invalid symbol")
      else fromDebugLoop na rest store (j : Int) (j : Int) j false (hr || !na) (hw || !na) hl
    else if ch = '<' then
      if !na ∧ hr then .error (.rangeError "Invalid symbol")
      else fromDebugLoop na rest store (j : Int) wo j false (hr || !na) hw hl
    else if ch = '*' then
      if !na ∧ hl then .error (.rangeError "Invalid symbol")
      else fromDebugLoop na rest store ro wo j false hr hw (hl || !na)
    else if ch = '>' then
      if !na ∧ hw then .error (.rangeError "Invalid symbol")
      else fromDebugLoop na rest store ro (j : Int) j false hr (hw || !na) hl
    else if ch = ' ' then fromDebugLoop na rest store ro wo j false hr hw hl
    else
      if !na ∧ rs then .error (.rangeError "Invalid symbol")
      else
        match rest with
        | [] =>
          match hexDigit ch with
          | none =>
            if !na then .error (.rangeError "Not a debug encoded string")
            else .ok (setByte store (j : Int) 0, ro, wo, j + 1, hr, hw, hl)
          | some b => .ok (setByte store (j : Int) b, ro, wo, j + 1, hr, hw, hl)
        | c2 :: rest2 =>
          match parseHexPair ch c2 with
          | none =>
            if !na then .error (.rangeError "Not a debug encoded string")
            else fromDebugLoop na rest2 (setByte store (j : Int) 0) ro wo (j + 1) true hr hw hl
          | some b =>
            if !na ∧ 255 < b then .error (.rangeError "Not a debug encoded string")
            else fromDebugLoop na rest2 (setByte store (j : Int) b) ro wo (j + 1) true hr hw hl

/-- `fromDebug(str, noAssert)` (src/src/index.ts:2592): a fresh buffer of
capacity `((k + 1) / 3) | 0` (its `allocUnsafe` fill modelled zero — an
assert-mode decode must write every position, so the fill is unobservable
there), the character loop, then the assert-mode final checks. -/
def fromDebug (str : List Char) (na : Bool) : Except JsError SB :=
  match fromDebugLoop na str (List.replicate ((str.length + 1) / 3) 0) 0 0 0 false
      false false false with
  | .error e => .error e
  | .ok (store, ro, wo, j, hr, hw, hl) =>
    if !na ∧ ¬(hr ∧ hw ∧ hl) then
      .error (.rangeError "Missing roffset or woffset or limit")
    else if !na ∧ j < (str.length + 1) / 3 then
      .error (.rangeError "Not a debug encoded string (is it hex?)")
    else .ok (SB.mk store ro wo na)

/-! ## Basic facts about the JS numeric coercions -/

theorem toUint32_ofNat (k : Nat) (h : k < 2 ^ 32) : toUint32 (k : Int) = k := by
  unfold toUint32
  rw [Int.emod_eq_of_lt (by exact_mod_cast Nat.zero_le k) (by exact_mod_cast h)]
  exact Int.toNat_ofNat k

theorem toInt32_ofNat_small (k : Nat) (h : k < 2 ^ 31) : toInt32 (k : Int) = k := by
  unfold toInt32
  have h32 : (k : Int) < 2 ^ 32 := by
    have : (2 ^ 31 : Int) < 2 ^ 32 := by norm_num
    omega
  rw [Int.emod_eq_of_lt (by exact_mod_cast Nat.zero_le k) h32]
  simp only []
  rw [if_pos (by exact_mod_cast h)]

theorem toUint32_toInt32 (i : Int) : toUint32 (toInt32 i) = toUint32 i := by
  unfold toUint32 toInt32
  have hpos : (0 : Int) < 2 ^ 32 := by norm_num
  have h1 : i % 2 ^ 32 ≥ 0 := Int.emod_nonneg i (by norm_num)
  have h2 : i % 2 ^ 32 < 2 ^ 32 := Int.emod_lt_of_pos i hpos
  by_cases h : i % 2 ^ 32 < 2 ^ 31
  · simp only [if_pos h, Int.emod_emod_of_dvd]
    rw [Int.emod_emod_of_dvd _ (dvd_refl _)]
  · simp only [if_neg h]
    rw [Int.sub_emod, Int.emod_emod_of_dvd _ (dvd_refl _), Int.emod_self, Int.sub_zero,
      Int.emod_emod_of_dvd _ (dvd_refl _)]

theorem toInt32_bounds (i : Int) : -(2 ^ 31) ≤ toInt32 i ∧ toInt32 i < 2 ^ 31 := by
  unfold toInt32
  have h1 : i % 2 ^ 32 ≥ 0 := Int.emod_nonneg i (by norm_num)
  have h2 : i % 2 ^ 32 < 2 ^ 32 := Int.emod_lt_of_pos i (by norm_num)
  by_cases h : i % 2 ^ 32 < 2 ^ 31
  · simp only [if_pos h]; omega
  · simp only [if_neg h]; omega

theorem toInt32_of_small (i : Int) (h1 : -(2 ^ 31) ≤ i) (h2 : i < 2 ^ 31) :
    toInt32 i = i := by
  unfold toInt32
  by_cases h : 0 ≤ i
  · rw [Int.emod_eq_of_lt h (by omega)]
    simp only []
    rw [if_pos (by omega)]
  · have : i % 2 ^ 32 = i + 2 ^ 32 := by omega
    rw [this]
    simp only []
    rw [if_neg (by omega)]
    omega

theorem toUint32_lt (i : Int) : toUint32 i < 2 ^ 32 := by
  unfold toUint32
  have h2 : i % 2 ^ 32 < 2 ^ 32 := Int.emod_lt_of_pos i (by norm_num)
  omega

/-! ## Bit-level helper lemmas -/

theorem and_two_pow_eq (b n : Nat) : b &&& 2 ^ n = if b.testBit n then 2 ^ n else 0 := by
  apply Nat.eq_of_testBit_eq
  intro i
  rw [Nat.testBit_and, Nat.testBit_two_pow]
  by_cases hbn : b.testBit n
  · rw [if_pos hbn]
    rw [Nat.testBit_two_pow]
    by_cases hni : n = i
    · subst hni
      simp [hbn]
    · simp [hni]
  · rw [if_neg hbn]
    simp only [Nat.zero_testBit]
    by_cases hni : n = i
    · subst hni
      simp [hbn]
    · simp [hni]

theorem or_two_pow_add (x s : Nat) (h : x < 2 ^ s) : x ||| 2 ^ s = x + 2 ^ s := by
  have h2 := Nat.mul_add_lt_is_or h 1
  rw [Nat.mul_one] at h2
  rw [Nat.or_comm, ← h2, Nat.add_comm]

theorem xor_mask (s x : Nat) (h : x < 2 ^ s) : x ^^^ (2 ^ s - 1) = 2 ^ s - 1 - x := by
  induction s generalizing x with
  | zero =>
    have hx : x = 0 := by omega
    subst hx
    simp
  | succ n ih =>
    have hK : 1 ≤ 2 ^ n := Nat.one_le_two_pow
    have hKs : 2 ^ (n + 1) = 2 * 2 ^ n := by rw [Nat.pow_succ]; ring
    have hx2 : x / 2 < 2 ^ n := by omega
    have hdiv : (x ^^^ (2 ^ (n + 1) - 1)) / 2 = x / 2 ^^^ (2 ^ n - 1) := by
      rw [Nat.xor_div_two]
      congr 1
      omega
    have hodd : (2 ^ (n + 1) - 1) % 2 = 1 := by omega
    have hmod : (x ^^^ (2 ^ (n + 1) - 1)) % 2 = 1 - x % 2 := by
      rcases Nat.mod_two_eq_zero_or_one x with h0 | h1
      · have : (x ^^^ (2 ^ (n + 1) - 1)) % 2 = 1 := by
          rw [Nat.xor_mod_two_eq_one]
          omega
        omega
      · have hne : ¬ (x ^^^ (2 ^ (n + 1) - 1)) % 2 = 1 := by
          rw [Nat.xor_mod_two_eq_one]
          push_neg
          constructor <;> omega
        omega
    have hih := ih (x / 2) hx2
    omega

/-- Splitting off the low 7-bit group: the heart of the varint byte format. -/
theorem varint_split (u m : Nat) :
    ((u &&& 0x7f) <<< m) ||| ((u >>> 7) <<< (m + 7)) = u <<< m := by
  have h127 : (0x7f : Nat) = 2 ^ 7 - 1 := by norm_num
  apply Nat.eq_of_testBit_eq
  intro i
  simp only [Nat.testBit_or, Nat.testBit_shiftLeft, Nat.testBit_shiftRight, h127,
    Nat.testBit_and, Nat.testBit_two_pow_sub_one]
  rcases Nat.lt_or_ge i m with h1 | h1
  · rw [decide_eq_false (by omega : ¬ i ≥ m), decide_eq_false (by omega : ¬ i ≥ m + 7)]
    simp
  · rcases Nat.lt_or_ge i (m + 7) with h2 | h2
    · rw [decide_eq_true (by omega : i ≥ m), decide_eq_false (by omega : ¬ i ≥ m + 7),
        decide_eq_true (by omega : i - m < 7)]
      simp
    · rw [decide_eq_true (by omega : i ≥ m), decide_eq_true (by omega : i ≥ m + 7),
        decide_eq_false (by omega : ¬ i - m < 7)]
      have h3 : 7 + (i - (m + 7)) = i - m := by omega
      rw [h3]
      simp

/-! ## Facts about `writeList` -/

theorem writeList_length (l : List Nat) : ∀ s j, (writeList s j l).length = s.length := by
  induction l with
  | nil => intro s j; rfl
  | cons b bs ih =>
    intro s j
    rw [writeList, ih, List.length_set]

theorem writeList_getElem?_lt (l : List Nat) :
    ∀ s j k, k < j → (writeList s j l)[k]? = s[k]? := by
  induction l with
  | nil => intro s j k _; rfl
  | cons b bs ih =>
    intro s j k hk
    rw [writeList, ih _ _ _ (by omega), List.getElem?_set_ne (by omega)]

theorem writeList_take (l : List Nat) (s : List Nat) (j : Nat) :
    (writeList s j l).take j = s.take j := by
  apply List.ext_getElem?
  intro i
  rw [List.getElem?_take, List.getElem?_take]
  by_cases hi : i < j
  · rw [if_pos hi, if_pos hi, writeList_getElem?_lt _ _ _ _ hi]
  · rw [if_neg hi, if_neg hi]

theorem writeList_drop (l : List Nat) :
    ∀ s j, j + l.length ≤ s.length →
      (writeList s j l).drop j = l ++ s.drop (j + l.length) := by
  induction l with
  | nil => intro s j _; simp [writeList]
  | cons b bs ih =>
    intro s j hlen
    rw [List.length_cons] at hlen
    have hj : j < s.length := by omega
    have hlen1 : (writeList (s.set j b) (j + 1) bs).length = s.length := by
      rw [writeList_length, List.length_set]
    rw [writeList]
    rw [List.drop_eq_getElem_cons (by omega)]
    have hhead : (writeList (s.set j b) (j + 1) bs)[j]? = some b := by
      rw [writeList_getElem?_lt _ _ _ _ (by omega), List.getElem?_set_self (by omega)]
    have hrest := ih (s.set j b) (j + 1) (by rw [List.length_set]; omega)
    rw [hrest, List.drop_set_of_lt _ _ (by omega)]
    simp only [List.cons_append, List.length_cons]
    have harith : j + 1 + bs.length = j + (bs.length + 1) := by omega
    rw [harith]
    refine congrArg₂ List.cons ?_ rfl
    have h2 := List.getElem?_eq_getElem (l := writeList (s.set j b) (j + 1) bs) (n := j) (by omega)
    rw [hhead] at h2
    exact Option.some_inj.mp h2.symm

/-! ## Facts about `varintBytes` and the two varint loops -/

theorem varintBytes_small (u : Nat) (h : u < 0x80) : varintBytes u = [u] := by
  rw [varintBytes, dif_neg (by omega)]

theorem varintBytes_big (u : Nat) (h : u ≥ 0x80) :
    varintBytes u = ((u &&& 0x7f) ||| 0x80) :: varintBytes (u >>> 7) := by
  rw [varintBytes, dif_pos h]

theorem varintBytes_len_pos (u : Nat) : 0 < (varintBytes u).length := by
  rw [varintBytes]
  split <;> simp

/-- The length of the varint byte sequence follows `calculateVarint32`'s
magnitude thresholds. -/
theorem varintBytes_length (u : Nat) (h : u < 2 ^ 32) :
    (varintBytes u).length =
      if u < 2 ^ 7 then 1 else if u < 2 ^ 14 then 2 else if u < 2 ^ 21 then 3
        else if u < 2 ^ 28 then 4 else 5 := by
  have e7 : u >>> 7 = u / 2 ^ 7 := Nat.shiftRight_eq_div_pow u 7
  by_cases h1 : u < 2 ^ 7
  · rw [varintBytes_small u (by omega), if_pos h1]
    rfl
  · rw [varintBytes_big u (by omega), if_neg h1, List.length_cons]
    have e7b : u >>> 7 >>> 7 = u >>> 7 / 2 ^ 7 := Nat.shiftRight_eq_div_pow _ 7
    by_cases h2 : u < 2 ^ 14
    · rw [varintBytes_small (u >>> 7) (by omega), if_pos h2]
      rfl
    · rw [varintBytes_big (u >>> 7) (by omega), if_neg h2, List.length_cons]
      have e7c : u >>> 7 >>> 7 >>> 7 = u >>> 7 >>> 7 / 2 ^ 7 := Nat.shiftRight_eq_div_pow _ 7
      by_cases h3 : u < 2 ^ 21
      · rw [varintBytes_small (u >>> 7 >>> 7) (by omega), if_pos h3]
        rfl
      · rw [varintBytes_big (u >>> 7 >>> 7) (by omega), if_neg h3, List.length_cons]
        by_cases h4 : u < 2 ^ 28
        · rw [varintBytes_small (u >>> 7 >>> 7 >>> 7) (by omega), if_pos h4]
          rfl
        · rw [varintBytes_big (u >>> 7 >>> 7 >>> 7) (by omega), if_neg h4, List.length_cons,
            varintBytes_small (u >>> 7 >>> 7 >>> 7 >>> 7) (by
              rw [Nat.shiftRight_eq_div_pow]
              omega)]
          rfl

/-- The write loop emits exactly `varintBytes u` starting at offset `o`. -/
theorem writeVarintLoop_spec (u : Nat) : ∀ (s : List Nat) (o : Nat),
    writeVarintLoop s (o : Int) u =
      (writeList s o (varintBytes u), (o : Int) + (varintBytes u).length) := by
  induction u using Nat.strong_induction_on with
  | _ u ih =>
    intro s o
    rw [writeVarintLoop]
    by_cases h : u ≥ 0x80
    · rw [dif_pos h, varintBytes_big u h]
      have hsh : u >>> 7 < u := by
        rw [Nat.shiftRight_eq_div_pow]
        exact Nat.div_lt_self (by omega) (by norm_num)
      have hset : setByte s (o : Int) ((u &&& 0x7f) ||| 0x80) =
          s.set o ((u &&& 0x7f) ||| 0x80) := by
        unfold setByte
        rw [if_neg (by omega), Int.toNat_ofNat]
      rw [hset]
      have hcast : ((o : Int) + 1) = ((o + 1 : Nat) : Int) := by push_cast; ring
      rw [hcast, ih (u >>> 7) hsh]
      rw [writeList, List.length_cons, Prod.mk.injEq]
      refine ⟨rfl, ?_⟩
      push_cast
      ring
    · rw [dif_neg h, varintBytes_small u (by omega)]
      unfold setByte
      rw [if_neg (by omega), Int.toNat_ofNat]
      rw [writeList, writeList]
      simp

/-- The read loop, run over a region holding `varintBytes u`, accepts exactly
those bytes and folds `u` (shifted into place) into the accumulator. -/
theorem readVarintLoop_spec (na : Bool) (s rest : List Nat) (u : Nat) :
    ∀ c v o, s.drop o = varintBytes u ++ rest →
      c + (varintBytes u).length ≤ 5 →
      readVarintLoop na s (o : Int) c v =
        .ok (v ||| (u <<< (7 * c)), ((o : Int) + (varintBytes u).length,
          c + (varintBytes u).length)) := by
  induction u using Nat.strong_induction_on with
  | _ u ih =>
    intro c v o hdrop hc
    have hlen : (s.drop o).length = s.length - o := List.length_drop o s
    rw [hdrop, List.length_append] at hlen
    have hpos := varintBytes_len_pos u
    have ho : o < s.length := by omega
    have hcond : (!na && decide ((o : Int) > (s.length : Int))) = false := by
      rw [decide_eq_false (by omega : ¬ ((o : Int) > (s.length : Int)))]
      simp
    by_cases h : u ≥ 0x80
    · have hso : s[o]? = some ((u &&& 0x7f) ||| 0x80) := by
        have h0 : (s.drop o)[0]? = s[o + 0]? := List.getElem?_drop s o 0
        rw [hdrop, varintBytes_big u h] at h0
        simpa using h0.symm
      have hgb : getByte s (o : Int) = (u &&& 0x7f) ||| 0x80 := by
        unfold getByte
        rw [if_neg (by omega), Int.toNat_ofNat, List.getD_eq_getElem?_getD, hso]
        rfl
      have hb1 : ((u &&& 0x7f) ||| 0x80) &&& 0x7f = u &&& 0x7f := by
        rw [Nat.and_distrib_right, Nat.and_assoc, Nat.and_self]
        have h1270 : (0x80 &&& 0x7f : Nat) = 0 := by decide
        rw [h1270, Nat.or_zero]
      have hb2 : (((u &&& 0x7f) ||| 0x80) &&& 0x80 : Nat) ≠ 0 := by
        have h128 : (0x80 : Nat) = 2 ^ 7 := by norm_num
        rw [h128, and_two_pow_eq, Nat.testBit_or, Nat.testBit_two_pow_self]
        simp
      have hlb := varintBytes_len_pos (u >>> 7)
      have hlenu : (varintBytes u).length = (varintBytes (u >>> 7)).length + 1 := by
        rw [varintBytes_big u h, List.length_cons]
      have hc5 : c < 5 := by omega
      have hsh : u >>> 7 < u := by
        rw [Nat.shiftRight_eq_div_pow]
        exact Nat.div_lt_self (by omega) (by norm_num)
      have hdrop1 : s.drop (o + 1) = varintBytes (u >>> 7) ++ rest := by
        have ht : s.drop (o + 1) = (s.drop o).tail := (List.tail_drop s o).symm
        rw [hdrop, varintBytes_big u h] at ht
        simpa using ht
      rw [readVarintLoop, hcond]
      simp only [Bool.false_eq_true, if_false, hgb, hb1, hb2, if_pos hc5]
      rw [dif_pos hb2]
      have hcast : ((o : Int) + 1) = ((o + 1 : Nat) : Int) := by push_cast; ring
      rw [hcast, ih (u >>> 7) hsh (c + 1) (v ||| ((u &&& 0x7f) <<< (7 * c))) (o + 1) hdrop1
        (by omega)]
      rw [Nat.lor_assoc]
      have hsplit : ((u &&& 0x7f) <<< (7 * c)) ||| ((u >>> 7) <<< (7 * (c + 1))) =
          u <<< (7 * c) := by
        have h7 : 7 * (c + 1) = 7 * c + 7 := by ring
        rw [h7]
        exact varint_split u (7 * c)
      rw [hsplit, hlenu]
      have h2 : ((o + 1 : Nat) : Int) + ((varintBytes (u >>> 7)).length : Int) =
          (o : Int) + (((varintBytes (u >>> 7)).length + 1 : Nat) : Int) := by
        push_cast
        ring
      rw [h2]
      have h3 : c + 1 + (varintBytes (u >>> 7)).length =
          c + ((varintBytes (u >>> 7)).length + 1) := by ring
      rw [h3]
    · have hu : varintBytes u = [u] := varintBytes_small u (by omega)
      have hso : s[o]? = some u := by
        have h0 : (s.drop o)[0]? = s[o + 0]? := List.getElem?_drop s o 0
        rw [hdrop, hu] at h0
        simpa using h0.symm
      have hgb : getByte s (o : Int) = u := by
        unfold getByte
        rw [if_neg (by omega), Int.toNat_ofNat, List.getD_eq_getElem?_getD, hso]
        rfl
      have hb0 : (u &&& 0x80 : Nat) = 0 := by
        have h128 : (0x80 : Nat) = 2 ^ 7 := by norm_num
        rw [h128, and_two_pow_eq,
          Nat.testBit_lt_two_pow (show u < 2 ^ 7 by omega)]
        simp
      have hb1 : (u &&& 0x7f : Nat) = u := by
        have h127 : (0x7f : Nat) = 2 ^ 7 - 1 := by norm_num
        rw [h127]
        exact Nat.and_pow_two_sub_one_of_lt_two_pow (by omega)
      have hc5 : c < 5 := by
        rw [hu] at hc
        simp at hc
        omega
      rw [readVarintLoop, hcond]
      simp only [Bool.false_eq_true, if_false, hgb, hb1, if_pos hc5]
      rw [dif_neg (by simp [hb0])]
      rw [hu]
      simp

/-! ## Zig-zag encode/decode facts -/

theorem calculateVarint32_toInt32 (x : Int) :
    calculateVarint32 (toInt32 x) = calculateVarint32 x := by
  unfold calculateVarint32
  rw [toUint32_toInt32]

theorem calculateVarint32_eq_len (u : Nat) (h : u < 2 ^ 32) :
    calculateVarint32 (u : Int) = (varintBytes u).length := by
  unfold calculateVarint32
  rw [varintBytes_length u h]
  simp only [toUint32_ofNat u h]

/-- For every int32 `n`, `zigZagEncode32 n` is a 32-bit natural and feeding it
back (after the int32 coercion `value |= 0` the codec performs) through
`zigZagDecode32` restores `n`. -/
theorem zigZag32_roundtrip (n : Int) (h1 : -(2 ^ 31) ≤ n) (h2 : n < 2 ^ 31) :
    ∃ u : Nat, zigZagEncode32 n = (u : Int) ∧ u < 2 ^ 32 ∧
      zigZagDecode32 (toInt32 (u : Int)) = n := by
  have hm : toInt32 n = n := toInt32_of_small n h1 h2
  have hmask : toUint32 (-1) = 2 ^ 32 - 1 := by decide
  have hz : toUint32 0 = 0 := by decide
  by_cases hn : 0 ≤ n
  · refine ⟨2 * n.toNat, ?_, by omega, ?_⟩
    · unfold zigZagEncode32
      simp only [hm, if_neg (by omega : ¬ n < 0), hz]
      rw [toUint32_toInt32]
      unfold toUint32
      rw [Int.emod_eq_of_lt (by omega) (by omega)]
      rw [Nat.xor_zero]
      push_cast
      omega
    · have he : toUint32 (toInt32 ((2 * n.toNat : Nat) : Int)) = 2 * n.toNat := by
        rw [toUint32_toInt32, toUint32_ofNat _ (by omega)]
      unfold zigZagDecode32
      simp only [he]
      have hpar : (2 * n.toNat) % 2 = 0 := by omega
      rw [hpar]
      simp only [Nat.cast_zero, neg_zero, hz]
      rw [Nat.xor_zero, Nat.shiftRight_eq_div_pow]
      have hdiv : 2 * n.toNat / 2 ^ 1 = n.toNat := by omega
      rw [hdiv, toInt32_of_small _ (by omega) (by exact_mod_cast by omega)]
      omega
  · refine ⟨2 * (-n).toNat - 1, ?_, by omega, ?_⟩
    · unfold zigZagEncode32
      simp only [hm, if_pos (by omega : n < 0), hmask]
      rw [toUint32_toInt32]
      unfold toUint32
      have hemod : (n * 2) % (2 ^ 32 : Int) = n * 2 + 2 ^ 32 := by omega
      rw [hemod]
      have hA : (n * 2 + 2 ^ 32 : Int).toNat = 2 ^ 32 - 2 * (-n).toNat := by omega
      rw [hA]
      rw [xor_mask 32 _ (by omega)]
      push_cast
      omega
    · have he : toUint32 (toInt32 ((2 * (-n).toNat - 1 : Nat) : Int)) =
          2 * (-n).toNat - 1 := by
        rw [toUint32_toInt32, toUint32_ofNat _ (by omega)]
      unfold zigZagDecode32
      simp only [he]
      have hpar : (2 * (-n).toNat - 1) % 2 = 1 := by omega
      rw [hpar]
      simp only [Nat.cast_one, hmask]
      rw [Nat.shiftRight_eq_div_pow]
      have hdiv : (2 * (-n).toNat - 1) / 2 ^ 1 = (-n).toNat - 1 := by omega
      rw [hdiv, xor_mask 32 _ (by omega)]
      unfold toInt32
      have hk : 1 ≤ (-n).toNat := by omega
      have hemod : ((2 ^ 32 - 1 - ((-n).toNat - 1) : Nat) : Int) % (2 ^ 32 : Int) =
          ((2 ^ 32 - 1 - ((-n).toNat - 1) : Nat) : Int) := by
        rw [Int.emod_eq_of_lt (by omega) (by push_cast; omega)]
      rw [hemod]
      simp only []
      rw [if_neg (by push_cast; omega)]
      push_cast
      omega

/-! ## The growth step -/

/-- Outcome of the inline pre-write growth step under assertions, for
reasonably small capacities. -/
theorem growForWrite_spec (bb : SB) (endOff : Nat) (hna : bb.noAssert = false)
    (h1 : 2 * bb.store.length < 2 ^ 31) (h2 : endOff < 2 ^ 31) :
    ∃ bb2, growForWrite bb (endOff : Int) = (.ok (), bb2) ∧
      bb2.roffset = bb.roffset ∧ bb2.woffset = bb.woffset ∧
      bb2.noAssert = bb.noAssert ∧
      endOff ≤ bb2.store.length ∧
      bb2.store.take bb.store.length = bb.store ∧
      (endOff ≤ bb.store.length → bb2 = bb) ∧
      (endOff > bb.store.length →
        bb2.store = bb.store ++
          List.replicate (max (2 * bb.store.length) endOff - bb.store.length) 0) := by
  unfold growForWrite
  by_cases hgrow : (endOff : Int) > (bb.store.length : Int)
  · rw [if_pos hgrow]
    have harg : (if (2 * bb.store.length : Int) > (endOff : Int)
        then (2 * bb.store.length : Int) else (endOff : Int)) =
        ((max (2 * bb.store.length) endOff : Nat) : Int) := by
      split <;> (push_cast; omega)
    rw [harg]
    unfold SB.resize
    rw [hna]
    simp only [Bool.not_false, if_true]
    rw [toInt32_of_small _ (by push_cast; omega) (by push_cast; omega)]
    rw [if_neg (by push_cast; omega)]
    rw [if_pos (by push_cast; omega)]
    refine ⟨_, rfl, rfl, rfl, rfl, ?_, ?_, ?_, ?_⟩
    · simp only [List.length_append, List.length_replicate]
      push_cast
      omega
    · simp only []
      rw [List.take_append_of_le_length (by omega)]
      exact List.take_length bb.store
    · intro hle
      exfalso
      push_cast at hgrow
      omega
    · intro _
      simp [Int.toNat_ofNat]
      omega
  · rw [if_neg hgrow]
    push_cast at hgrow
    exact ⟨bb, rfl, rfl, rfl, rfl, by omega, by simp, fun _ => rfl, fun hlt => by omega⟩

theorem varintBytes_le_five (u : Nat) (h : u < 2 ^ 32) : (varintBytes u).length ≤ 5 := by
  rw [varintBytes_length u h]
  split_ifs <;> omega

/-- Full characterization of a relative `writeVarint32` call under assertions. -/
theorem writeVarint32_relative_spec (bb : SB) (u w : Nat)
    (hu : u < 2 ^ 32) (hna : bb.noAssert = false)
    (hw : bb.woffset = (w : Int)) (hwlen : w ≤ bb.store.length)
    (hcap : bb.store.length < 2 ^ 28) :
    ∃ bb2,
      bb.writeVarint32 (u : Int) none = (.ok none, bb2) ∧
      bb2.roffset = bb.roffset ∧ bb2.noAssert = bb.noAssert ∧
      bb2.woffset = (w : Int) + (varintBytes u).length ∧
      bb2.store.drop w = varintBytes u ++ bb2.store.drop (w + (varintBytes u).length) ∧
      w + (varintBytes u).length ≤ bb2.store.length ∧
      bb2.store.length < 2 ^ 30 ∧
      bb2.store.take w = bb.store.take w ∧
      (w + (varintBytes u).length ≤ bb.store.length → bb2.store.length = bb.store.length) ∧
      (w + (varintBytes u).length > bb.store.length →
        bb2.store.length = max (2 * bb.store.length) (w + (varintBytes u).length)) := by
  have hL5 : (varintBytes u).length ≤ 5 := varintBytes_le_five u hu
  obtain ⟨bb1, hgw, hr1, hw1, hna1, hle1, htake1, hsame, hgrown⟩ :=
    growForWrite_spec bb (w + (varintBytes u).length) hna (by omega) (by omega)
  have hlen1 : bb1.store.length < 2 ^ 30 := by
    rcases le_or_lt (w + (varintBytes u).length) bb.store.length with hc | hc
    · rw [hsame hc]
      omega
    · rw [hgrown hc, List.length_append, List.length_replicate]
      omega
  have hwle1 : w + (varintBytes u).length ≤ bb1.store.length := hle1
  have hdropEq : (writeList bb1.store w (varintBytes u)).drop (w + (varintBytes u).length) =
      bb1.store.drop (w + (varintBytes u).length) := by
    rw [← List.drop_drop, writeList_drop _ _ _ hwle1, List.drop_left]
  unfold SB.writeVarint32
  simp only [Option.isNone_none, Option.getD_none, hna, Bool.not_false, if_true, hw]
  rw [toUint32_ofNat w (by omega)]
  rw [if_neg (by push_cast; omega)]
  dsimp only
  rw [SB.writeVarint32Body]
  rw [calculateVarint32_toInt32, calculateVarint32_eq_len u hu]
  have hc1 : ((w : Int) + (((varintBytes u).length : Nat) : Int)) =
      ((w + (varintBytes u).length : Nat) : Int) := by push_cast; ring
  rw [hc1, hgw]
  dsimp only
  rw [toUint32_toInt32, toUint32_ofNat u hu]
  rw [writeVarintLoop_spec u bb1.store w]
  refine ⟨_, rfl, hr1, ?_, ?_, ?_, ?_, ?_, ?_, ?_, ?_⟩
  · simp only []
    rw [hna1, hna]
  · exact hc1
  · simp only []
    rw [writeList_drop _ _ _ hwle1, hdropEq]
  · simp only []
    rw [writeList_length]
    omega
  · simp only []
    rw [writeList_length]
    omega
  · simp only []
    rw [writeList_take]
    rcases le_or_lt (w + (varintBytes u).length) bb.store.length with hc | hc
    · rw [hsame hc]
    · rw [← htake1, List.take_take, Nat.min_eq_left hwlen]
  · intro hle
    simp only []
    rw [writeList_length, hsame hle]
  · intro hgt
    simp only []
    rw [writeList_length, hgrown hgt, List.length_append, List.length_replicate]
    omega

/-- Full characterization of an absolute `readVarint32` call under assertions,
over a store whose bytes at the offset hold a full varint. -/
theorem readVarint32_absolute_spec (bb : SB) (u w : Nat) (rest : List Nat)
    (hu : u < 2 ^ 32) (hna : bb.noAssert = false)
    (hdrop : bb.store.drop w = varintBytes u ++ rest)
    (hlen : bb.store.length < 2 ^ 32) :
    bb.readVarint32 (some (w : Int)) =
      (.ok (toInt32 (u : Int), some (varintBytes u).length), bb) := by
  have hpos := varintBytes_len_pos u
  have hdl : (bb.store.drop w).length = bb.store.length - w := List.length_drop w bb.store
  rw [hdrop, List.length_append] at hdl
  have hwlt : w < bb.store.length := by omega
  unfold SB.readVarint32
  simp only [Option.isNone_some, Option.getD_some, hna, Bool.not_false, if_true]
  rw [toUint32_ofNat w (by omega)]
  rw [if_neg (by push_cast; omega)]
  dsimp only
  rw [SB.readVarint32Body]
  rw [hna]
  rw [readVarintLoop_spec false bb.store rest u 0 0 w hdrop
    (by have := varintBytes_le_five u hu; omega)]
  simp only [Nat.zero_or, Nat.shiftLeft_zero, Nat.zero_add, Nat.mul_zero, Bool.false_eq_true,
    if_false]

/-- `resize` under assertions, for in-range capacities: grows to exactly the
requested capacity when larger, never shrinks, preserves all existing bytes
at their offsets and leaves cursors untouched. -/
theorem resize_spec (bb : SB) (c : Int) (hna : bb.noAssert = false)
    (h0 : 0 ≤ c) (h1 : c < 2 ^ 31) :
    ∃ bb2, bb.resize c = (.ok (), bb2) ∧
      bb2.store.length = max bb.store.length c.toNat ∧
      bb2.store.take bb.store.length = bb.store ∧
      bb2.roffset = bb.roffset ∧ bb2.woffset = bb.woffset ∧ bb2.noAssert = bb.noAssert := by
  unfold SB.resize
  rw [hna]
  simp only [Bool.not_false, if_true]
  rw [toInt32_of_small c (by omega) h1]
  rw [if_neg (by omega)]
  by_cases hgrow : (bb.store.length : Int) < c
  · rw [if_pos hgrow]
    refine ⟨_, rfl, ?_, ?_, rfl, rfl, rfl⟩
    · simp only [List.length_append, List.length_replicate]
      omega
    · simp only []
      rw [List.take_append_of_le_length (by omega)]
      exact List.take_length bb.store
  · rw [if_neg hgrow]
    exact ⟨bb, rfl, by omega, List.take_length bb.store, rfl, rfl, hna⟩

/-- `ensureCapacity` under assertions, when the current capacity falls short:
the store grows to exactly `max (2 * current) required`, preserving bytes. -/
theorem ensureCapacity_spec (bb : SB) (c : Int) (hna : bb.noAssert = false)
    (hlt : (bb.store.length : Int) < c) (h1 : c < 2 ^ 31)
    (h2 : 2 * bb.store.length < 2 ^ 31) :
    ∃ bb2, bb.ensureCapacity c = (.ok (), bb2) ∧
      bb2.store.length = max (2 * bb.store.length) c.toNat ∧
      bb2.store.take bb.store.length = bb.store ∧
      bb2.roffset = bb.roffset ∧ bb2.woffset = bb.woffset := by
  unfold SB.ensureCapacity
  rw [if_pos hlt]
  have harg : (if (2 * bb.store.length : Int) > c then (2 * bb.store.length : Int) else c) =
      ((max (2 * bb.store.length) c.toNat : Nat) : Int) := by
    split <;> (push_cast; omega)
  rw [harg]
  obtain ⟨bb2, he, hlen, htake, hr, hw, _⟩ :=
    resize_spec bb ((max (2 * bb.store.length) c.toNat : Nat) : Int) hna
      (by push_cast; omega) (by push_cast; omega)
  refine ⟨bb2, he, ?_, htake, hr, hw⟩
  rw [hlen, Int.toNat_ofNat]
  omega

/-- C3: capacity growth policy.  (a) `resize` never shrinks the store and
preserves existing bytes at their offsets; (b) `ensureCapacity c` with
current capacity below `c` grows the store to exactly `max (2 * current) c`;
(c) a relative `writeVarint32` whose required end offset `s` exceeds the
current capacity leaves a store of exactly `max (2 * old) s` bytes, with the
bytes below the write position intact. -/
theorem capacity_growth_policy :
    (∀ (bb : SB) (c : Int), bb.noAssert = false → 0 ≤ c → c < 2 ^ 31 →
      ∃ bb2, bb.resize c = (.ok (), bb2) ∧
        bb2.store.length = max bb.store.length c.toNat ∧
        bb2.store.take bb.store.length = bb.store ∧
        bb2.roffset = bb.roffset ∧ bb2.woffset = bb.woffset) ∧
    (∀ (bb : SB) (c : Int), bb.noAssert = false →
      (bb.store.length : Int) < c → c < 2 ^ 31 → 2 * bb.store.length < 2 ^ 31 →
      ∃ bb2, bb.ensureCapacity c = (.ok (), bb2) ∧
        bb2.store.length = max (2 * bb.store.length) c.toNat ∧
        bb2.store.take bb.store.length = bb.store) ∧
    (∀ (bb : SB) (u w : Nat), u < 2 ^ 32 → bb.noAssert = false →
      bb.woffset = (w : Int) → w ≤ bb.store.length → bb.store.length < 2 ^ 28 →
      w + (varintBytes u).length > bb.store.length →
      ∃ bb2, bb.writeVarint32 (u : Int) none = (.ok none, bb2) ∧
        bb2.store.length = max (2 * bb.store.length) (w + (varintBytes u).length) ∧
        bb2.store.take w = bb.store.take w) := by
  refine ⟨?_, ?_, ?_⟩
  · intro bb c hna h0 h1
    obtain ⟨bb2, he, hlen, htake, hr, hw, _⟩ := resize_spec bb c hna h0 h1
    exact ⟨bb2, he, hlen, htake, hr, hw⟩
  · intro bb c hna hlt h1 h2
    obtain ⟨bb2, he, hlen, htake, _, _⟩ := ensureCapacity_spec bb c hna hlt h1 h2
    exact ⟨bb2, he, hlen, htake⟩
  · intro bb u w hu hna hw hwlen hcap hneed
    obtain ⟨bb2, he, _, _, _, _, _, _, htk, _, hgt⟩ :=
      writeVarint32_relative_spec bb u w hu hna hw hwlen hcap
    exact ⟨bb2, he, hgt hneed, htk⟩

/-- Witness for C3 at concrete inputs. -/
theorem capacity_growth_policy_witness :
    (∃ bb2, (SB.mk [7] 0 0 false).resize 3 = (.ok (), bb2) ∧
      bb2.store.length = max 1 (3 : Int).toNat ∧
      bb2.store.take 1 = [7] ∧ bb2.roffset = 0 ∧ bb2.woffset = 0) ∧
    (∃ bb2, (SB.mk [7] 0 0 false).ensureCapacity 3 = (.ok (), bb2) ∧
      bb2.store.length = max 2 (3 : Int).toNat ∧ bb2.store.take 1 = [7]) ∧
    (∃ bb2, (SB.mk [] 0 0 false).writeVarint32 ((0 : Nat) : Int) none = (.ok none, bb2) ∧
      bb2.store.length = max 0 (0 + (varintBytes 0).length) ∧
      bb2.store.take 0 = List.take 0 []) := by
  obtain ⟨h1, h2, h3⟩ := capacity_growth_policy
  refine ⟨?_, ?_, ?_⟩
  · have := h1 (SB.mk [7] 0 0 false) 3 rfl (by norm_num) (by norm_num)
    simpa using this
  · have := h2 (SB.mk [7] 0 0 false) 3 rfl (by norm_num) (by norm_num) (by norm_num)
    simpa using this
  · have := h3 (SB.mk [] 0 0 false) 0 0 (by norm_num) rfl rfl (by norm_num) (by norm_num)
      (by have h := varintBytes_len_pos 0; simpa using h)
    simpa using this

/-- C6: the "Truncated" guard of `readVarint32`'s scan loop is dead code.
On the one-byte store `[0x80]` — whose every byte from offset 0 has the
continuation bit set — a checked absolute `readVarint32` at offset 0 does
not raise the Truncated error: the out-of-bounds read at offset 1 yields
byte 0 (JS `undefined`), which terminates the loop, so the call returns
value 0 with length 2. -/
theorem readVarint32_allContinuation_no_truncated :
    (SB.mk [0x80] 0 1 false).readVarint32 (some 0) =
      (.ok (0, some 2), SB.mk [0x80] 0 1 false) := by
  simp [SB.readVarint32, SB.readVarint32Body, readVarintLoop, toUint32, toInt32, getByte,
    show (128 &&& 127 : Nat) = 0 from rfl, show (128 &&& 128 : Nat) = 128 from rfl,
    show (0 &&& 127 : Nat) = 0 from rfl, show (0 &&& 128 : Nat) = 0 from rfl]

/-- Helper documenting why the Truncated guard can never fire: from any
in-bounds start offset the scan loop always returns `.ok`. -/
theorem readVarintLoop_never_truncated (na : Bool) (s : List Nat) :
    ∀ (k o c v : Nat), o ≤ s.length → s.length - o ≤ k →
      ∃ r, readVarintLoop na s (o : Int) c v = .ok r := by
  intro k
  induction k with
  | zero =>
    intro o c v ho hk
    have ho2 : o = s.length := by omega
    rw [readVarintLoop]
    have hcond : (!na && decide ((o : Int) > (s.length : Int))) = false := by
      rw [decide_eq_false (by omega : ¬ ((o : Int) > (s.length : Int)))]
      simp
    rw [hcond]
    simp only [Bool.false_eq_true, if_false]
    have hb : getByte s (o : Int) = 0 := by
      unfold getByte
      rw [if_neg (by omega), Int.toNat_ofNat]
      exact List.getD_eq_default _ _ (by omega)
    rw [dif_neg (by rw [hb]; simp)]
    exact ⟨_, rfl⟩
  | succ k ih =>
    intro o c v ho hk
    rw [readVarintLoop]
    have hcond : (!na && decide ((o : Int) > (s.length : Int))) = false := by
      rw [decide_eq_false (by omega : ¬ ((o : Int) > (s.length : Int)))]
      simp
    rw [hcond]
    simp only [Bool.false_eq_true, if_false]
    by_cases hb : getByte s (o : Int) &&& 0x80 ≠ 0
    · rw [dif_pos hb]
      have hblt : o < s.length := by
        by_contra hge
        apply hb
        have : getByte s (o : Int) = 0 := by
          unfold getByte
          rw [if_neg (by omega), Int.toNat_ofNat]
          exact List.getD_eq_default _ _ (by omega)
        rw [this]
        simp
      have hcast : ((o : Int) + 1) = ((o + 1 : Nat) : Int) := by push_cast; ring
      rw [hcast]
      exact ih (o + 1) (c + 1) _ (by omega) (by omega)
    · rw [dif_neg hb]
      exact ⟨_, rfl⟩

/-! ## State lemmas for error paths and cursor effects -/

theorem resize_state (bb : SB) (c : Int) (r : Except JsError Unit) (bb1 : SB)
    (h : bb.resize c = (r, bb1)) :
    bb1.roffset = bb.roffset ∧ bb1.woffset = bb.woffset ∧ bb1.noAssert = bb.noAssert ∧
    (∀ e, r = .error e → bb1 = bb) := by
  unfold SB.resize at h
  split at h
  · simp only [] at h
    split at h
    · injection h with h1 h2
      subst h2; subst h1
      exact ⟨rfl, rfl, rfl, fun e he => rfl⟩
    · split at h
      · injection h with h1 h2
        subst h2; subst h1
        exact ⟨rfl, rfl, rfl, fun e he => by simp at he⟩
      · injection h with h1 h2
        subst h2; subst h1
        exact ⟨rfl, rfl, rfl, fun e he => by simp at he⟩
  · split at h
    · injection h with h1 h2
      subst h2; subst h1
      exact ⟨rfl, rfl, rfl, fun e he => by simp at he⟩
    · injection h with h1 h2
      subst h2; subst h1
      exact ⟨rfl, rfl, rfl, fun e he => by simp at he⟩

theorem growForWrite_state (bb : SB) (x : Int) (r : Except JsError Unit) (bb1 : SB)
    (h : growForWrite bb x = (r, bb1)) :
    bb1.roffset = bb.roffset ∧ bb1.woffset = bb.woffset ∧ bb1.noAssert = bb.noAssert ∧
    (∀ e, r = .error e → bb1 = bb) := by
  unfold growForWrite at h
  split at h
  · exact resize_state _ _ _ _ h
  · injection h with h1 h2
    subst h2; subst h1
    exact ⟨rfl, rfl, rfl, fun e he => by simp at he⟩

theorem readInt8_error_state (bb : SB) (off? : Option Int) (e : JsError) (bb1 : SB)
    (h : bb.readInt8 off? = (.error e, bb1)) :
    bb1.store = bb.store ∧ bb1.woffset = bb.woffset ∧
    bb1.roffset = bb.roffset + (if off?.isNone then 1 else 0) := by
  rw [SB.readInt8] at h
  split at h
  · rename_i e2 bb2 heq
    rw [SB.checkRead] at heq
    split at heq
    · injection heq with h1 h2
      injection h with h3 h4
      subst h4
      rw [← h2]
      by_cases hrel : off?.isNone
      · simp [hrel]
      · simp only [if_neg hrel]
        exact ⟨by trivial, by trivial, by omega⟩
    · injection heq with h1 h2
      simp at h1
  · rename_i o bb2 heq
    injection h with h3 h4
    simp at h3

theorem writeInt8_error_state (bb : SB) (v : Int) (off? : Option Int) (e : JsError) (bb1 : SB)
    (h : bb.writeInt8 v off? = (.error e, bb1)) :
    bb1.store = bb.store ∧ bb1.roffset = bb.roffset ∧
    bb1.woffset = bb.woffset + (if off?.isNone then 1 else 0) := by
  rw [SB.writeInt8] at h
  split at h
  · rename_i e2 bb2 heq
    rw [SB.checkWrite] at heq
    split at heq
    · injection heq with h1 h2
      injection h with h3 h4
      subst h4
      rw [← h2]
      by_cases hrel : off?.isNone
      · simp [hrel]
      · simp only [if_neg hrel]
        exact ⟨by trivial, by trivial, by omega⟩
    · split at heq
      · rename_i e3 bb3 hgrow
        injection heq with h1 h2
        injection h with h3 h4
        subst h4
        rw [← h2]
        obtain ⟨hr, hw, hna, herr⟩ := growForWrite_state _ _ _ _ hgrow
        rw [herr e3 rfl]
        by_cases hrel : off?.isNone
        · simp [hrel]
        · simp only [if_neg hrel]
          exact ⟨by trivial, by trivial, by omega⟩
      · injection heq with h1 h2
        simp at h1
  · rename_i o bb2 heq
    injection h with h3 h4
    simp at h3

theorem readVarint32_error_state (bb : SB) (off? : Option Int) (e : JsError) (bb1 : SB)
    (h : bb.readVarint32 off? = (.error e, bb1)) : bb1 = bb := by
  rw [SB.readVarint32] at h
  split at h
  · injection h with h1 h2
    exact h2.symm
  · rename_i o heq
    rw [SB.readVarint32Body] at h
    split at h
    · injection h with h1 h2
      exact h2.symm
    · split at h
      · injection h with h1 h2
        simp at h1
      · injection h with h1 h2
        simp at h1

theorem writeVarint32_error_state (bb : SB) (v : Int) (off? : Option Int) (e : JsError)
    (bb1 : SB) (h : bb.writeVarint32 v off? = (.error e, bb1)) : bb1 = bb := by
  rw [SB.writeVarint32] at h
  split at h
  · injection h with h1 h2
    exact h2.symm
  · rename_i p heq
    rw [SB.writeVarint32Body] at h
    split at h
    · rename_i e2 bb2 hgrow
      injection h with h1 h2
      obtain ⟨hr, hw, hna, herr⟩ := growForWrite_state _ _ _ _ hgrow
      rw [← h2]
      exact herr e2 rfl
    · split at h
      · injection h with h1 h2
        simp at h1
      · injection h with h1 h2
        simp at h1

/-- C4 counterexample: a relative `readInt8` on an empty buffer (assertions
enabled) fails its range check, but the final state has `roffset = 1` — the
cursor was advanced by `_checkRead` before the range check threw, so the
cursors are NOT exactly as they were before the call. -/
theorem failed_relative_read_moves_cursor :
    ((SB.mk [] 0 0 false).readInt8 none).1 = .error (.rangeError "Illegal offset") ∧
    ((SB.mk [] 0 0 false).readInt8 none).2.roffset = 1 := by
  constructor <;> rfl

/-- C4 (amended): when a checked read/write fails, the stored bytes are never
mutated and an absolute call leaves both cursors untouched; but a failing
RELATIVE fixed-width call (which goes through `_checkRead`/`_checkWrite`) has
already advanced the corresponding cursor by the operation’s width before the
check threw.  Failing varint reads/writes leave the state entirely
unchanged. -/
theorem error_state_after_failed_checks :
    (∀ (bb : SB) (off? : Option Int) (e : JsError) (bb1 : SB),
      bb.readInt8 off? = (.error e, bb1) →
        bb1.store = bb.store ∧ bb1.woffset = bb.woffset ∧
        bb1.roffset = bb.roffset + (if off?.isNone then 1 else 0)) ∧
    (∀ (bb : SB) (v : Int) (off? : Option Int) (e : JsError) (bb1 : SB),
      bb.writeInt8 v off? = (.error e, bb1) →
        bb1.store = bb.store ∧ bb1.roffset = bb.roffset ∧
        bb1.woffset = bb.woffset + (if off?.isNone then 1 else 0)) ∧
    (∀ (bb : SB) (off? : Option Int) (e : JsError) (bb1 : SB),
      bb.readVarint32 off? = (.error e, bb1) → bb1 = bb) ∧
    (∀ (bb : SB) (v : Int) (off? : Option Int) (e : JsError) (bb1 : SB),
      bb.writeVarint32 v off? = (.error e, bb1) → bb1 = bb) :=
  ⟨readInt8_error_state, writeInt8_error_state,
   readVarint32_error_state, writeVarint32_error_state⟩

/-- Witness for the amended C4 theorem at a concrete failing relative read. -/
theorem error_state_after_failed_checks_witness :
    ((SB.mk [] 0 0 false).readInt8 none).2.store = (SB.mk [] 0 0 false).store ∧
    ((SB.mk [] 0 0 false).readInt8 none).2.woffset = (SB.mk [] 0 0 false).woffset ∧
    ((SB.mk [] 0 0 false).readInt8 none).2.roffset =
      (SB.mk [] 0 0 false).roffset + (if (none : Option Int).isNone then 1 else 0) :=
  error_state_after_failed_checks.1 (SB.mk [] 0 0 false) none
    (.rangeError "Illegal offset") _ rfl

/-- C10: `write(source, offset)` with an explicit target offset still
consumes the source: the source's `roffset` advances by the full readable
length `source.woffset - source.roffset`, while the target's cursors are
untouched. -/
theorem write_consumes_source (bb source : SB) (o : Nat)
    (hna : bb.noAssert = false) (ho : o ≤ bb.store.length)
    (hcap : bb.store.length < 2 ^ 28)
    (hL : 0 < source.woffset - source.roffset)
    (hLle : source.woffset - source.roffset ≤ 2 ^ 28) :
    ∃ bb2 source2, bb.write source (some (o : Int)) = (.ok (), bb2, source2) ∧
      source2.roffset = source.roffset + (source.woffset - source.roffset) ∧
      source2.woffset = source.woffset ∧ source2.store = source.store ∧
      bb2.roffset = bb.roffset ∧ bb2.woffset = bb.woffset := by
  rw [SB.write]
  have hu32 : toUint32 ((some (o : Int)).getD bb.woffset) = o := by
    simp only [Option.getD_some]
    exact toUint32_ofNat o (by omega)
  rw [hu32]
  rw [if_neg (by
    rw [hna]
    simp only [Bool.not_false, eq_self_iff_true, true_and]
    omega)]
  rw [if_neg (by omega)]
  have hcast : ((o : Int) + (source.woffset - source.roffset)) =
      ((o + (source.woffset - source.roffset).toNat : Nat) : Int) := by
    push_cast
    omega
  obtain ⟨bb1, hgw, hr1, hw1, hna1, hle1, htake1, hsm1, hbig1⟩ :=
    growForWrite_spec bb (o + (source.woffset - source.roffset).toNat) hna
      (by omega) (by omega)
  rw [hcast, hgw]
  refine ⟨_, _, rfl, ?_, rfl, rfl, ?_, ?_⟩
  · rfl
  · exact hr1
  · exact hw1

/-- Witness for C10 at a concrete one-byte source. -/
theorem write_consumes_source_witness :
    ∃ bb2 source2,
      (SB.mk [0] 0 0 false).write (SB.mk [5] 0 1 false) (some ((0 : Nat) : Int)) =
        (.ok (), bb2, source2) ∧
      source2.roffset = (SB.mk [5] 0 1 false).roffset +
        ((SB.mk [5] 0 1 false).woffset - (SB.mk [5] 0 1 false).roffset) ∧
      source2.woffset = (SB.mk [5] 0 1 false).woffset ∧
      source2.store = (SB.mk [5] 0 1 false).store ∧
      bb2.roffset = (SB.mk [0] 0 0 false).roffset ∧
      bb2.woffset = (SB.mk [0] 0 0 false).woffset :=
  write_consumes_source (SB.mk [0] 0 0 false) (SB.mk [5] 0 1 false) 0 rfl
    (by norm_num) (by norm_num) (by decide) (by decide)

/-- A relative `readVarint32` over a well-formed varint advances `roffset` by
exactly the byte length consumed and touches nothing else. -/
theorem readVarint32_relative_spec (bb : SB) (u : Nat) (w : Nat) (rest : List Nat)
    (hu : u < 2 ^ 32) (hna : bb.noAssert = false)
    (hr : bb.roffset = (w : Int))
    (hdrop : bb.store.drop w = varintBytes u ++ rest)
    (hlen : bb.store.length < 2 ^ 32) :
    bb.readVarint32 none =
      (.ok (toInt32 (u : Int), none),
        { bb with roffset := (w : Int) + (varintBytes u).length }) := by
  have hpos := varintBytes_len_pos u
  have hdl : (bb.store.drop w).length = bb.store.length - w := List.length_drop w bb.store
  rw [hdrop, List.length_append] at hdl
  have hwlt : w < bb.store.length := by omega
  unfold SB.readVarint32
  simp only [Option.isNone_none, Option.getD_none, hna, Bool.not_false, if_true]
  rw [hr, toUint32_ofNat w (by omega)]
  rw [if_neg (by push_cast; omega)]
  dsimp only
  rw [SB.readVarint32Body]
  rw [hna]
  rw [readVarintLoop_spec false bb.store rest u 0 0 w hdrop
    (by have := varintBytes_le_five u hu; omega)]
  simp only [Nat.zero_or, Nat.shiftLeft_zero, Nat.zero_add, Nat.mul_zero, Bool.false_eq_true,
    if_false, if_true]

/-- A successful relative `readInt8` advances `roffset` by exactly 1 and
mutates nothing else. -/
theorem readInt8_relative_advance (bb : SB) (v : Int) (bb1 : SB)
    (h : bb.readInt8 none = (.ok v, bb1)) :
    bb1.store = bb.store ∧ bb1.woffset = bb.woffset ∧ bb1.roffset = bb.roffset + 1 := by
  rw [SB.readInt8] at h
  split at h
  · injection h with h3 h4
    simp at h3
  · rename_i o bb2 heq
    rw [SB.checkRead] at heq
    split at heq
    · injection heq with h1 h2
      simp at h1
    · injection heq with h1 h2
      injection h with h3 h4
      subst h4
      rw [← h2]
      simp

/-- An absolute `readInt8` never mutates the receiver at all. -/
theorem readInt8_absolute_state (bb : SB) (o : Int) (r : Except JsError Int) (bb1 : SB)
    (h : bb.readInt8 (some o) = (r, bb1)) : bb1 = bb := by
  rw [SB.readInt8] at h
  split at h <;>
    (rename_i heq
     rw [SB.checkRead] at heq
     split at heq <;>
       (injection heq with h1 h2
        injection h with h3 h4
        subst h4
        simp at h2
        exact h2.symm))

/-- A successful relative `writeInt8` advances `woffset` by exactly 1 and
leaves `roffset` alone. -/
theorem writeInt8_relative_advance (bb : SB) (v : Int) (bb1 : SB)
    (h : bb.writeInt8 v none = (.ok (), bb1)) :
    bb1.roffset = bb.roffset ∧ bb1.woffset = bb.woffset + 1 := by
  rw [SB.writeInt8] at h
  split at h
  · injection h with h3 h4
    simp at h3
  · rename_i o bb2 heq
    rw [SB.checkWrite] at heq
    split at heq
    · injection heq with h1 h2
      simp at h1
    · split at heq
      · injection heq with h1 h2
        simp at h1
      · rename_i u2 bb3 hgrow
        injection heq with h1 h2
        injection h with h3 h4
        subst h4
        obtain ⟨hr3, hw3, hna3, -⟩ := growForWrite_state _ _ _ _ hgrow
        rw [← h2]
        simp only [Option.isNone_none, if_true] at hr3 hw3
        constructor
        · simpa using hr3
        · rw [hw3]
          simp

/-- An absolute `writeInt8` never mutates either cursor (the store may
still grow). -/
theorem writeInt8_absolute_cursors (bb : SB) (v : Int) (o : Int) (r : Except JsError Unit) (bb1 : SB)
    (h : bb.writeInt8 v (some o) = (r, bb1)) :
    bb1.roffset = bb.roffset ∧ bb1.woffset = bb.woffset := by
  rw [SB.writeInt8] at h
  split at h
  · rename_i e2 bb2 heq
    rw [SB.checkWrite] at heq
    split at heq
    · injection heq with h1 h2
      injection h with h3 h4
      subst h4
      rw [← h2]
      simp
    · split at heq
      · rename_i e3 bb3 hgrow
        injection heq with h1 h2
        injection h with h3 h4
        subst h4
        obtain ⟨hr3, hw3, hna3, -⟩ := growForWrite_state _ _ _ _ hgrow
        rw [← h2]
        simp only [Option.isNone_some, if_false] at hr3 hw3
        exact ⟨hr3, hw3⟩
      · injection heq with h1 h2
        simp at h1
  · rename_i o2 bb2 heq
    rw [SB.checkWrite] at heq
    split at heq
    · injection heq with h1 h2
      simp at h1
    · split at heq
      · injection heq with h1 h2
        simp at h1
      · rename_i u2 bb3 hgrow
        injection heq with h1 h2
        injection h with h3 h4
        subst h4
        obtain ⟨hr3, hw3, hna3, -⟩ := growForWrite_state _ _ _ _ hgrow
        rw [← h2]
        simp only [Option.isNone_some, if_false] at hr3 hw3
        exact ⟨hr3, hw3⟩

/-- An absolute `readVarint32` never mutates the receiver at all. -/
theorem readVarint32_absolute_state (bb : SB) (o : Int) (r : Except JsError (Int × Option Nat)) (bb1 : SB)
    (h : bb.readVarint32 (some o) = (r, bb1)) : bb1 = bb := by
  rw [SB.readVarint32] at h
  split at h
  · injection h with h1 h2
    exact h2.symm
  · rw [SB.readVarint32Body] at h
    split at h
    · injection h with h1 h2
      exact h2.symm
    · split at h
      · rename_i hrel
        simp at hrel
      · injection h with h1 h2
        exact h2.symm

/-- An absolute `writeVarint32` never mutates either cursor. -/
theorem writeVarint32_absolute_cursors (bb : SB) (v : Int) (o : Int) (r : Except JsError (Option Nat)) (bb1 : SB)
    (h : bb.writeVarint32 v (some o) = (r, bb1)) :
    bb1.roffset = bb.roffset ∧ bb1.woffset = bb.woffset := by
  rw [SB.writeVarint32] at h
  split at h
  · injection h with h1 h2
    rw [← h2]
    exact ⟨rfl, rfl⟩
  · rw [SB.writeVarint32Body] at h
    split at h
    · rename_i e2 bb2 hgrow
      injection h with h1 h2
      obtain ⟨hr2, hw2, -, -⟩ := growForWrite_state _ _ _ _ hgrow
      rw [← h2]
      exact ⟨hr2, hw2⟩
    · rename_i u2 bb2 hgrow
      obtain ⟨hr2, hw2, -, -⟩ := growForWrite_state _ _ _ _ hgrow
      split at h
      · rename_i hrel
        simp at hrel
      · injection h with h1 h2
        rw [← h2]
        exact ⟨hr2, hw2⟩

/-- The `prepend` reallocation branch: when the prepended length exceeds the
(absolute) offset, the store is reallocated and BOTH of the target's cursors
are shifted right by the overflow `len - offset` — even though the call gave
an explicit offset. -/
theorem prepend_shift_spec (bb source : SB) (o : Nat)
    (hna : bb.noAssert = false) (ho : o ≤ bb.store.length)
    (hcap : bb.store.length < 2 ^ 32)
    (hdiff : (o : Int) < (source.store.length : Int) - source.roffset) :
    ∃ bb2 source2, bb.prepend source (some (o : Int)) = (.ok (), bb2, source2) ∧
      bb2.roffset = bb.roffset + ((source.store.length : Int) - source.roffset - o) ∧
      bb2.woffset = bb.woffset + ((source.store.length : Int) - source.roffset - o) ∧
      source2.roffset = (source.store.length : Int) := by
  rw [SB.prepend]
  simp only [Option.isNone_some, Option.getD_some, hna, Bool.not_false, if_true]
  rw [toUint32_ofNat o (by omega)]
  rw [if_neg (by push_cast; omega)]
  dsimp only
  rw [SB.prependBody]
  rw [if_neg (by omega)]
  rw [if_pos (by omega)]
  rw [prependShifted, prependInPlace]
  simp only [Bool.false_eq_true, if_false]
  refine ⟨_, _, rfl, ?_, ?_, rfl⟩
  · dsimp only
  · dsimp only

/-- C5 counterexample: an ABSOLUTE `prepend` call (explicit offset 1) that
triggers the reallocation branch moves both cursors of the receiver
(`roffset` 0 → 1, `woffset` 2 → 3), contradicting "an absolute call never
mutates either cursor". -/
theorem prepend_absolute_moves_cursors :
    ((SB.mk [18, 52] 0 2 false).prepend (SB.mk [86, 120] 0 2 false) (some 1)).2.1.roffset
        = 1 ∧
    ((SB.mk [18, 52] 0 2 false).prepend (SB.mk [86, 120] 0 2 false) (some 1)).2.1.woffset
        = 3 := by
  constructor <;> rfl

/-- C5 (amended): cursor duality holds for the fixed-width and varint
reads/writes — a relative call advances exactly the corresponding cursor by
the bytes produced/consumed, an absolute call mutates neither cursor — but
`prepend` is an exception: an absolute `prepend` that must reallocate shifts
BOTH cursors of the target right by the reallocation amount. -/
theorem cursor_duality_amended :
    (∀ (bb : SB) (v : Int) (bb1 : SB), bb.readInt8 none = (.ok v, bb1) →
      bb1.store = bb.store ∧ bb1.woffset = bb.woffset ∧ bb1.roffset = bb.roffset + 1) ∧
    (∀ (bb : SB) (o : Int) (r : Except JsError Int) (bb1 : SB),
      bb.readInt8 (some o) = (r, bb1) → bb1 = bb) ∧
    (∀ (bb : SB) (v : Int) (bb1 : SB), bb.writeInt8 v none = (.ok (), bb1) →
      bb1.roffset = bb.roffset ∧ bb1.woffset = bb.woffset + 1) ∧
    (∀ (bb : SB) (v o : Int) (r : Except JsError Unit) (bb1 : SB),
      bb.writeInt8 v (some o) = (r, bb1) →
      bb1.roffset = bb.roffset ∧ bb1.woffset = bb.woffset) ∧
    (∀ (bb : SB) (o : Int) (r : Except JsError (Int × Option Nat)) (bb1 : SB),
      bb.readVarint32 (some o) = (r, bb1) → bb1 = bb) ∧
    (∀ (bb : SB) (v o : Int) (r : Except JsError (Option Nat)) (bb1 : SB),
      bb.writeVarint32 v (some o) = (r, bb1) →
      bb1.roffset = bb.roffset ∧ bb1.woffset = bb.woffset) ∧
    (∀ (bb : SB) (u w : Nat) (rest : List Nat), u < 2 ^ 32 → bb.noAssert = false →
      bb.roffset = (w : Int) → bb.store.drop w = varintBytes u ++ rest →
      bb.store.length < 2 ^ 32 →
      bb.readVarint32 none = (.ok (toInt32 (u : Int), none),
        { bb with roffset := (w : Int) + (varintBytes u).length })) ∧
    (∀ (bb : SB) (u w : Nat), u < 2 ^ 32 → bb.noAssert = false → bb.woffset = (w : Int) →
      w ≤ bb.store.length → bb.store.length < 2 ^ 28 →
      ∃ bb2, bb.writeVarint32 (u : Int) none = (.ok none, bb2) ∧
        bb2.roffset = bb.roffset ∧ bb2.woffset = (w : Int) + (varintBytes u).length) ∧
    (∀ (bb source : SB) (o : Nat), bb.noAssert = false → o ≤ bb.store.length →
      bb.store.length < 2 ^ 32 → (o : Int) < (source.store.length : Int) - source.roffset →
      ∃ bb2 source2, bb.prepend source (some (o : Int)) = (.ok (), bb2, source2) ∧
        bb2.roffset = bb.roffset + ((source.store.length : Int) - source.roffset - o) ∧
        bb2.woffset = bb.woffset + ((source.store.length : Int) - source.roffset - o) ∧
        source2.roffset = (source.store.length : Int)) :=
  ⟨readInt8_relative_advance, readInt8_absolute_state, writeInt8_relative_advance, writeInt8_absolute_cursors, readVarint32_absolute_state, writeVarint32_absolute_cursors,
   readVarint32_relative_spec,
   fun bb u w hu hna hw hwlen hcap => by
     obtain ⟨bb2, h1, h2, h3, h4, -⟩ :=
       writeVarint32_relative_spec bb u w hu hna hw hwlen hcap
     exact ⟨bb2, h1, h2, h4⟩,
   prepend_shift_spec⟩

/-- Witness for the amended C5 theorem at a concrete relative read. -/
theorem cursor_duality_amended_witness :
    ((SB.mk [7] 0 1 false).readInt8 none).2.store = (SB.mk [7] 0 1 false).store ∧
    ((SB.mk [7] 0 1 false).readInt8 none).2.woffset = (SB.mk [7] 0 1 false).woffset ∧
    ((SB.mk [7] 0 1 false).readInt8 none).2.roffset = (SB.mk [7] 0 1 false).roffset + 1 :=
  cursor_duality_amended.1 (SB.mk [7] 0 1 false) 7 _ rfl

/-- C8 counterexample: `compact(2, 4)` on a buffer with `roffset = 1`,
`woffset = 4` sets `woffset` to `woffset - roffset = 3`, not to
`woffset - begin = 2` as the claim's "decreased by the amount of consumed
prefix begin" would have it. -/
theorem compact_woffset_uses_roffset :
    ((SB.mk [1, 2, 3, 4] 1 4 false).compact (some 2) (some 4)).2.woffset ≠ 4 - 2 ∧
    ((SB.mk [1, 2, 3, 4] 1 4 false).compact (some 2) (some 4)).2.woffset =
      (SB.mk [1, 2, 3, 4] 1 4 false).woffset - (SB.mk [1, 2, 3, 4] 1 4 false).roffset := by
  constructor
  · decide
  · rfl

/-- C8 (amended): an explicit in-range `compact(begin, end)` with
`begin < end` — outside the `begin = 0 ∧ end = capacity` identity case —
installs the `[begin, end)` slice with `roffset = 0` and `woffset` decreased
by the OLD `roffset` (not by `begin`); `compact(0, capacity)` returns the
buffer entirely unchanged; an empty range installs the empty store with both
cursors zeroed; and a relative call equals `compact(roffset, capacity)`. -/
theorem compact_amended :
    (∀ (bb : SB) (b e : Nat), bb.noAssert = false → b ≤ e → e ≤ bb.store.length →
      bb.store.length < 2 ^ 32 →
      (¬(b = 0 ∧ e = bb.store.length) → b < e →
        bb.compact (some (b : Int)) (some (e : Int)) =
          (.ok (), SB.mk ((bb.store.drop b).take (e - b)) 0
            (bb.woffset - bb.roffset) bb.noAssert)) ∧
      (b = 0 ∧ e = bb.store.length →
        bb.compact (some (b : Int)) (some (e : Int)) = (.ok (), bb)) ∧
      (b = e → bb.compact (some (b : Int)) (some (e : Int)) = (.ok (), bb) ∨
        bb.compact (some (b : Int)) (some (e : Int)) =
          (.ok (), SB.mk [] 0 0 bb.noAssert))) ∧
    (∀ bb : SB, bb.compact none none =
      bb.compact (some bb.roffset) (some (bb.store.length : Int))) := by
  constructor
  · intro bb b e hna hbe hel hcap
    have hcheck : bb.compact (some (b : Int)) (some (e : Int)) =
        (if (b : Int) = 0 ∧ (e : Int) = (bb.store.length : Int) then (.ok (), bb)
          else if (e : Int) - (b : Int) = 0 then (.ok (), SB.mk [] 0 0 bb.noAssert)
          else (.ok (), SB.mk ((bb.store.drop ((b : Int)).toNat).take
            (((e : Int)) - (b : Int)).toNat) 0 (bb.woffset - bb.roffset) bb.noAssert)) := by
      rw [SB.compact]
      simp only [Option.getD_some, hna, Bool.not_false, if_true]
      rw [toUint32_ofNat b (by omega), toUint32_ofNat e (by omega)]
      rw [if_neg (by push_cast; omega)]
    refine ⟨?_, ?_, ?_⟩
    · intro hne hlt
      rw [hcheck]
      rw [if_neg (by
        intro hh
        exact hne ⟨by exact_mod_cast hh.1, by exact_mod_cast hh.2⟩)]
      rw [if_neg (by omega)]
      have h1 : ((b : Int)).toNat = b := by omega
      have h2 : (((e : Int)) - (b : Int)).toNat = e - b := by omega
      rw [h1, h2]
    · intro hbz
      rw [hcheck]
      rw [if_pos (by
        constructor
        · exact_mod_cast hbz.1
        · exact_mod_cast hbz.2)]
    · intro hbeq
      rw [hcheck]
      by_cases hz : (b : Int) = 0 ∧ (e : Int) = (bb.store.length : Int)
      · left
        rw [if_pos hz]
      · right
        rw [if_neg hz]
        rw [if_pos (by omega)]
  · intro bb
    rfl

/-- Witness for the amended C8 theorem at a concrete compact call. -/
theorem compact_amended_witness :
    (SB.mk [1, 2, 3, 4] 1 4 false).compact (some ((2 : Nat) : Int)) (some ((4 : Nat) : Int)) =
      (.ok (), SB.mk (((SB.mk [1, 2, 3, 4] 1 4 false).store.drop 2).take (4 - 2)) 0
        ((SB.mk [1, 2, 3, 4] 1 4 false).woffset - (SB.mk [1, 2, 3, 4] 1 4 false).roffset)
        (SB.mk [1, 2, 3, 4] 1 4 false).noAssert) :=
  (compact_amended.1 (SB.mk [1, 2, 3, 4] 1 4 false) 2 4 rfl (by norm_num) (by norm_num)
    (by norm_num)).1 (by decide) (by norm_num)

/-- Reading at a natural offset is plain list lookup with default 0. -/
theorem getByte_natCast (s : List Nat) (o : Nat) : getByte s (o : Int) = s.getD o 0 := by
  unfold getByte
  rw [if_neg (by omega), Int.toNat_ofNat]

/-- `readCString`'s scan raises the range error when no zero byte exists at
or after the start offset. -/
theorem readCStringLoop_no_zero (s : List Nat) : ∀ (k o : Nat), s.length - o ≤ k →
    o ≤ s.length → (∀ i, o ≤ i → i < s.length → s.getD i 0 ≠ 0) →
    readCStringLoop s (o : Int) = .error (.rangeError "Index out of range") := by
  intro k
  induction k with
  | zero =>
    intro o hk ho hnz
    rw [readCStringLoop]
    rw [dif_pos (by omega)]
  | succ k ih =>
    intro o hk ho hnz
    by_cases hend : o = s.length
    · rw [readCStringLoop]
      rw [dif_pos (by omega)]
    · rw [readCStringLoop]
      rw [dif_neg (by omega)]
      rw [if_pos (by
        rw [getByte_natCast]
        exact hnz o (by omega) (by omega))]
      have hc : ((o : Int) + 1) = ((o + 1 : Nat) : Int) := by push_cast; ring
      rw [hc]
      exact ih (o + 1) (by omega) (by omega) (fun i h1 h2 => hnz i (by omega) h2)

/-- `readCString`'s scan stops just past the first zero byte. -/
theorem readCStringLoop_finds_zero (s : List Nat) : ∀ (k o p : Nat), p - o ≤ k →
    o ≤ p → p < s.length → s.getD p 0 = 0 →
    (∀ i, o ≤ i → i < p → s.getD i 0 ≠ 0) →
    readCStringLoop s (o : Int) = .ok ((p : Int) + 1) := by
  intro k
  induction k with
  | zero =>
    intro o p hk ho hp hz hnz
    have hop : o = p := by omega
    subst hop
    rw [readCStringLoop]
    rw [dif_neg (by omega)]
    rw [if_neg (by
      rw [getByte_natCast, hz]
      simp)]
  | succ k ih =>
    intro o p hk ho hp hz hnz
    by_cases hop : o = p
    · subst hop
      rw [readCStringLoop]
      rw [dif_neg (by omega)]
      rw [if_neg (by
        rw [getByte_natCast, hz]
        simp)]
    · rw [readCStringLoop]
      rw [dif_neg (by omega)]
      rw [if_pos (by
        rw [getByte_natCast]
        exact hnz o (by omega) (by omega))]
      have hc : ((o : Int) + 1) = ((o + 1 : Nat) : Int) := by push_cast; ring
      rw [hc]
      exact ih (o + 1) p (by omega) (by omega) hp hz (fun i h1 h2 => hnz i (by omega) h2)

/-- C9: with assertions enabled, `writeCString` rejects every string
containing a NUL code unit — before any mutation, so the state is returned
unchanged — and `readCString` scans forward from the read offset: it raises
a range error when the store ends before a zero byte, and otherwise returns
the bytes up to (excluding) the first zero together with the scanned
length. -/
theorem cstring_codec_errors :
    (∀ (bb : SB) (str : List Nat) (off? : Option Int), bb.noAssert = false →
      0 ∈ str →
      bb.writeCString str off? =
        (.error (.typeError "Illegal str: Contains NULL-characters"), bb)) ∧
    (∀ (bb : SB) (o : Nat), bb.noAssert = false → o < bb.store.length →
      bb.store.length < 2 ^ 32 →
      (∀ i, o ≤ i → i < bb.store.length → bb.store.getD i 0 ≠ 0) →
      bb.readCString (some (o : Int)) =
        (.error (.rangeError "Index out of range"), bb)) ∧
    (∀ (bb : SB) (o p : Nat), bb.noAssert = false → o ≤ p → p < bb.store.length →
      bb.store.length < 2 ^ 32 → bb.store.getD p 0 = 0 →
      (∀ i, o ≤ i → i < p → bb.store.getD i 0 ≠ 0) →
      bb.readCString (some (o : Int)) =
        (.ok ((bb.store.drop o).take (p - o), some (p + 1 - o)), bb)) := by
  refine ⟨?_, ?_, ?_⟩
  · intro bb str off? hna hmem
    rw [SB.writeCString]
    simp only [hna, Bool.not_false, if_true]
    rw [if_pos (by
      rw [List.any_eq_true]
      exact ⟨0, hmem, by simp⟩)]
  · intro bb o hna ho hcap hnz
    rw [SB.readCString]
    simp only [Option.getD_some, hna, Bool.not_false, if_true]
    rw [toUint32_ofNat o (by omega)]
    rw [if_neg (by push_cast; omega)]
    dsimp only
    rw [readCStringLoop_no_zero bb.store (bb.store.length - o) o (by omega) (by omega) hnz]
  · intro bb o p hna hop hp hcap hz hnz
    rw [SB.readCString]
    simp only [Option.isNone_some, Option.getD_some, hna, Bool.not_false, if_true]
    rw [toUint32_ofNat o (by omega)]
    rw [if_neg (by push_cast; omega)]
    dsimp only
    rw [readCStringLoop_finds_zero bb.store (p - o) o p (by omega) hop hp hz hnz]
    simp only [Bool.false_eq_true, if_false]
    have h1 : ((o : Int)).toNat = o := by omega
    have h2 : ((p : Int) + 1 - 1 - (o : Int)).toNat = p - o := by omega
    have h3 : ((p : Int) + 1 - (o : Int)).toNat = p + 1 - o := by omega
    rw [h1, h2, h3]

/-- Witness for C9 at a concrete NUL-containing write. -/
theorem cstring_codec_errors_witness :
    (SB.mk [] 0 0 false).writeCString [0] none =
      (.error (.typeError "Illegal str: Contains NULL-characters"), SB.mk [] 0 0 false) :=
  cstring_codec_errors.1 (SB.mk [] 0 0 false) [0] none rfl (by simp)

/-- C1: for every 32-bit signed integer `n`, a relative `writeVarint32ZigZag`
followed by an absolute `readVarint32ZigZag` at the previous write cursor
returns exactly `n`, reports length `calculateVarint32 (zigZagEncode32 n)`,
and the write advanced `woffset` by that same byte count. -/
theorem varint32ZigZag_roundtrip (bb : SB) (n : Int)
    (hn1 : -(2 ^ 31) ≤ n) (hn2 : n < 2 ^ 31)
    (hna : bb.noAssert = false)
    (hw0 : 0 ≤ bb.woffset) (hw1 : bb.woffset ≤ (bb.store.length : Int))
    (hcap : bb.store.length < 2 ^ 28) :
    ∃ bb2,
      bb.writeVarint32ZigZag n none = (.ok none, bb2) ∧
      bb2.woffset = bb.woffset + calculateVarint32 (zigZagEncode32 n) ∧
      bb2.readVarint32ZigZag (some bb.woffset) =
        (.ok (n, some (calculateVarint32 (zigZagEncode32 n))), bb2) := by
  obtain ⟨u, hu_enc, hu_lt, hu_dec⟩ := zigZag32_roundtrip n hn1 hn2
  have hsizeE : calculateVarint32 (zigZagEncode32 n) = (varintBytes u).length := by
    rw [hu_enc, calculateVarint32_eq_len u hu_lt]
  have hw : bb.woffset = (bb.woffset.toNat : Int) := by omega
  obtain ⟨bb2, hwrite, hr2, hna2, hw2, hdrop2, hle2, hcap2, htk2, hlenEq2, hlenGt2⟩ :=
    writeVarint32_relative_spec bb u bb.woffset.toNat hu_lt hna hw (by omega) hcap
  have hread := readVarint32_absolute_spec bb2 u bb.woffset.toNat
    (bb2.store.drop (bb.woffset.toNat + (varintBytes u).length)) hu_lt
    (by rw [hna2, hna]) hdrop2 (by omega)
  rw [← hw] at hread
  refine ⟨bb2, ?_, ?_, ?_⟩
  · unfold SB.writeVarint32ZigZag
    rw [hu_enc]
    exact hwrite
  · rw [hw2, hsizeE]
    omega
  · unfold SB.readVarint32ZigZag
    rw [hread]
    dsimp only
    rw [hu_dec, hsizeE]

/-- Witness for C1 at a concrete input. -/
theorem varint32ZigZag_roundtrip_witness :
    ∃ bb2,
      (SB.mk [] 0 0 false).writeVarint32ZigZag (-3) none = (.ok none, bb2) ∧
      bb2.woffset = (0 : Int) + calculateVarint32 (zigZagEncode32 (-3)) ∧
      bb2.readVarint32ZigZag (some 0) =
        (.ok (-3, some (calculateVarint32 (zigZagEncode32 (-3)))), bb2) :=
  varint32ZigZag_roundtrip ⟨[], 0, 0, false⟩ (-3) (by norm_num) (by norm_num) rfl
    (by norm_num) (by norm_num) (by norm_num)


theorem hexDigitChar_not_marker :
    ∀ x, x < 16 → hexDigitChar x ≠ '|' ∧ hexDigitChar x ≠ ']' ∧ hexDigitChar x ≠ '^' ∧
      hexDigitChar x ≠ '<' ∧ hexDigitChar x ≠ '*' ∧ hexDigitChar x ≠ '>' ∧
      hexDigitChar x ≠ ' ' := by
  decide

set_option maxRecDepth 4096 in
theorem parseHexPair_byteHex :
    ∀ b, b < 256 → parseHexPair (hexDigitChar (b / 16)) (hexDigitChar (b % 16)) = some b := by
  decide

theorem setByte_natCast (s : List Nat) (j : Nat) (b : Nat) :
    setByte s (j : Int) b = s.set j b := by
  unfold setByte
  rw [if_neg (by omega), Int.toNat_ofNat]

theorem markerAt_eq (bb : SB) (r w i : Nat)
    (hr : bb.roffset = (r : Int)) (hw : bb.woffset = (w : Int)) :
    markerAt bb i =
      (if i = r ∧ r = w ∧ w = bb.store.length then ['|']
       else if i = r ∧ r = w then ['^']
       else if i = r ∧ r = bb.store.length then ['[']
       else if i = w ∧ w = bb.store.length then [']']
       else if i = r then ['<']
       else if i = w then ['>']
       else if i = bb.store.length then ['*']
       else if i ≠ 0 ∧ i ≠ bb.store.length then [' ']
       else []) := by
  unfold markerAt
  rw [hr, hw]
  norm_cast

theorem fromDebugLoop_pipe (rest : List Char) (store : List Nat) (ro wo : Int) (j : Nat) (rs : Bool) :
    fromDebugLoop false ('|' :: rest) store ro wo j rs false false false =
      fromDebugLoop false rest store (j : Int) (j : Int) j false true true true := by
  rw [fromDebugLoop.eq_def]
  dsimp only
  simp

theorem fromDebugLoop_caret (rest : List Char) (store : List Nat) (ro wo : Int) (j : Nat)
    (rs hl0 : Bool) :
    fromDebugLoop false ('^' :: rest) store ro wo j rs false false hl0 =
      fromDebugLoop false rest store (j : Int) (j : Int) j false true true hl0 := by
  rw [fromDebugLoop.eq_def]
  dsimp only
  simp

theorem fromDebugLoop_rbracket (rest : List Char) (store : List Nat) (ro wo : Int) (j : Nat)
    (rs hr0 : Bool) :
    fromDebugLoop false (']' :: rest) store ro wo j rs hr0 false false =
      fromDebugLoop false rest store ro (j : Int) j false hr0 true true := by
  rw [fromDebugLoop.eq_def]
  dsimp only
  simp

theorem fromDebugLoop_lt (rest : List Char) (store : List Nat) (ro wo : Int) (j : Nat)
    (rs hw0 hl0 : Bool) :
    fromDebugLoop false ('<' :: rest) store ro wo j rs false hw0 hl0 =
      fromDebugLoop false rest store (j : Int) wo j false true hw0 hl0 := by
  rw [fromDebugLoop.eq_def]
  dsimp only
  simp

theorem fromDebugLoop_star (rest : List Char) (store : List Nat) (ro wo : Int) (j : Nat)
    (rs hr0 hw0 : Bool) :
    fromDebugLoop false ('*' :: rest) store ro wo j rs hr0 hw0 false =
      fromDebugLoop false rest store ro wo j false hr0 hw0 true := by
  rw [fromDebugLoop.eq_def]
  dsimp only
  simp

theorem fromDebugLoop_gt (rest : List Char) (store : List Nat) (ro wo : Int) (j : Nat)
    (rs hr0 hl0 : Bool) :
    fromDebugLoop false ('>' :: rest) store ro wo j rs hr0 false hl0 =
      fromDebugLoop false rest store ro (j : Int) j false hr0 true hl0 := by
  rw [fromDebugLoop.eq_def]
  dsimp only
  simp

theorem fromDebugLoop_space (rest : List Char) (store : List Nat) (ro wo : Int) (j : Nat)
    (rs hr0 hw0 hl0 : Bool) :
    fromDebugLoop false (' ' :: rest) store ro wo j rs hr0 hw0 hl0 =
      fromDebugLoop false rest store ro wo j false hr0 hw0 hl0 := by
  rw [fromDebugLoop.eq_def]
  dsimp only
  simp

theorem fromDebugLoop_byte (b : Nat) (hb : b < 256) (X : List Char) (store : List Nat)
    (ro wo : Int) (j : Nat) (hr0 hw0 hl0 : Bool) :
    fromDebugLoop false (byteHex b ++ X) store ro wo j false hr0 hw0 hl0 =
      fromDebugLoop false X (store.set j b) ro wo (j + 1) true hr0 hw0 hl0 := by
  obtain ⟨h1, h2, h3, h4, h5, h6, h7⟩ := hexDigitChar_not_marker (b / 16) (by omega)
  unfold byteHex
  simp only [List.cons_append, List.nil_append]
  rw [fromDebugLoop.eq_def]
  dsimp only
  rw [if_neg h1, if_neg h2, if_neg h3, if_neg h4, if_neg h5, if_neg h6, if_neg h7]
  rw [if_neg (by simp)]
  rw [parseHexPair_byteHex b hb]
  dsimp only
  rw [if_neg (fun hcon => absurd hcon.2 (by omega))]
  rw [setByte_natCast]

theorem fromDebugLoop_marker_pos (bb : SB) (r w : Nat)
    (hr : bb.roffset = (r : Int)) (hw : bb.woffset = (w : Int))
    (hex : r = bb.store.length → w = bb.store.length)
    (i : Nat) (hi1 : 1 ≤ i)
    (X : List Char) (store : List Nat) (ro0 wo0 : Int) (rs : Bool) (hr0 hw0 hl0 : Bool)
    (hhr : i = r → hr0 = false) (hhw : i = w → hw0 = false)
    (hhl : i = bb.store.length → hl0 = false) :
    fromDebugLoop false (markerAt bb i ++ X) store ro0 wo0 i rs hr0 hw0 hl0 =
      fromDebugLoop false X store (if i = r then (r : Int) else ro0)
        (if i = w then (w : Int) else wo0) i false
        (hr0 || decide (i = r)) (hw0 || decide (i = w))
        (hl0 || decide (i = bb.store.length)) := by
  rw [markerAt_eq bb r w i hr hw]
  by_cases c1 : i = r ∧ r = w ∧ w = bb.store.length
  · rw [if_pos c1]
    rw [hhr c1.1, hhw (by omega), hhl (by omega)]
    simp only [List.cons_append, List.nil_append]
    rw [fromDebugLoop_pipe]
    have e1 : i = r := c1.1
    have f1 : r = w := by omega
    have f2 : w = bb.store.length := by omega
    simp [e1, f1, f2]
  · rw [if_neg c1]
    by_cases c2 : i = r ∧ r = w
    · rw [if_pos c2]
      rw [hhr c2.1, hhw (by omega)]
      simp only [List.cons_append, List.nil_append]
      rw [fromDebugLoop_caret]
      have e1 : i = r := c2.1
      have f1 : r = w := by omega
      have f2 : ¬w = bb.store.length := by omega
      simp [e1, f1, f2]
    · rw [if_neg c2]
      by_cases c3 : i = r ∧ r = bb.store.length
      · exact absurd ⟨c3.1, by
          have hwn := hex (by omega)
          omega, by
          have hwn := hex (by omega)
          omega⟩ c1
      · rw [if_neg c3]
        by_cases c4 : i = w ∧ w = bb.store.length
        · rw [if_pos c4]
          rw [hhw c4.1, hhl (by omega)]
          simp only [List.cons_append, List.nil_append]
          rw [fromDebugLoop_rbracket]
          have e2 : i = w := c4.1
          have f2 : w = bb.store.length := by omega
          have f3 : ¬bb.store.length = r := by omega
          simp [e2, f2, f3]
        · rw [if_neg c4]
          by_cases c5 : i = r
          · rw [if_pos c5]
            rw [hhr c5]
            simp only [List.cons_append, List.nil_append]
            rw [fromDebugLoop_lt]
            have f1 : ¬r = w := by omega
            have f2 : ¬r = bb.store.length := by omega
            simp [c5, f1, f2]
          · rw [if_neg c5]
            by_cases c6 : i = w
            · rw [if_pos c6]
              rw [hhw c6]
              simp only [List.cons_append, List.nil_append]
              rw [fromDebugLoop_gt]
              have e1 : ¬w = r := by omega
              have e3 : ¬w = bb.store.length := by omega
              simp [c6, e1, e3]
            · rw [if_neg c6]
              by_cases c7 : i = bb.store.length
              · rw [if_pos c7]
                rw [hhl c7]
                simp only [List.cons_append, List.nil_append]
                rw [fromDebugLoop_star]
                have e1 : ¬bb.store.length = r := by omega
                have e2 : ¬bb.store.length = w := by omega
                simp [c7, e1, e2]
              · rw [if_neg c7]
                rw [if_pos (show i ≠ 0 ∧ i ≠ bb.store.length by omega)]
                simp only [List.cons_append, List.nil_append]
                rw [fromDebugLoop_space]
                rw [if_neg c5, if_neg c6]
                simp [c5, c6, c7]

theorem fromDebugLoop_marker_zero (bb : SB) (r w : Nat)
    (hr : bb.roffset = (r : Int)) (hw : bb.woffset = (w : Int))
    (hex : r = bb.store.length → w = bb.store.length)
    (X : List Char) (store : List Nat) :
    fromDebugLoop false (markerAt bb 0 ++ X) store 0 0 0 false false false false =
      fromDebugLoop false X store (if 0 = r then (r : Int) else 0)
        (if 0 = w then (w : Int) else 0) 0 false
        (decide (0 = r)) (decide (0 = w)) (decide (0 = bb.store.length)) := by
  rw [markerAt_eq bb r w 0 hr hw]
  by_cases c1 : 0 = r ∧ r = w ∧ w = bb.store.length
  · rw [if_pos c1]
    simp only [List.cons_append, List.nil_append]
    rw [fromDebugLoop_pipe]
    have e1 : 0 = r := c1.1
    have f1 : r = w := by omega
    have f2 : w = bb.store.length := by omega
    simp [← e1, ← f1, ← f2]
  · rw [if_neg c1]
    by_cases c2 : 0 = r ∧ r = w
    · rw [if_pos c2]
      simp only [List.cons_append, List.nil_append]
      rw [fromDebugLoop_caret]
      have e1 : 0 = r := c2.1
      have f1 : r = w := by omega
      have fz : ¬(0 : Nat) = bb.store.length := by omega
      simp [← e1, ← f1, fz]
    · rw [if_neg c2]
      by_cases c3 : 0 = r ∧ r = bb.store.length
      · exact absurd ⟨c3.1, by
          have hwn := hex (by omega)
          omega, by
          have hwn := hex (by omega)
          omega⟩ c1
      · rw [if_neg c3]
        by_cases c4 : 0 = w ∧ w = bb.store.length
        · rw [if_pos c4]
          simp only [List.cons_append, List.nil_append]
          rw [fromDebugLoop_rbracket]
          have fz1 : ¬(0 : Nat) = r := by omega
          have fz2 : (0 : Nat) = bb.store.length := by omega
          simp [fz1, ← fz2, ← c4.1]
        · rw [if_neg c4]
          by_cases c5 : 0 = r
          · rw [if_pos c5]
            simp only [List.cons_append, List.nil_append]
            rw [fromDebugLoop_lt]
            have fz1 : ¬(0 : Nat) = w := by omega
            have fz2 : ¬(0 : Nat) = bb.store.length := by omega
            simp [← c5, fz1, fz2]
          · rw [if_neg c5]
            by_cases c6 : 0 = w
            · rw [if_pos c6]
              simp only [List.cons_append, List.nil_append]
              rw [fromDebugLoop_gt]
              have f1 : ¬(0 : Nat) = bb.store.length := by omega
              simp [← c6, c5, f1]
            · rw [if_neg c6]
              by_cases c7 : 0 = bb.store.length
              · rw [if_pos c7]
                simp only [List.cons_append, List.nil_append]
                rw [fromDebugLoop_star]
                simp [← c7, c5, c6]
              · rw [if_neg c7]
                rw [if_neg (show ¬((0 : Nat) ≠ 0 ∧ (0 : Nat) ≠ bb.store.length) by simp)]
                rw [List.nil_append]
                simp [c5, c6, c7]

theorem flag_or_decide_step (a : Bool) (i r : Nat) (ha : i < r → a = false) :
    ((a || decide (i + 1 = r)) || decide (i + 1 < r)) = (a || decide (i < r)) := by
  by_cases h1 : i < r
  · rw [ha h1]
    simp only [Bool.false_or]
    by_cases h2 : i + 1 = r
    · simp [h2, show ¬(r < r) by omega, show i < r from h1]
    · simp [h2, show i + 1 < r by omega, show i < r from h1]
  · simp [show ¬(i + 1 = r) by omega, show ¬(i + 1 < r) by omega, h1]

theorem cursor_if_step (ro0 v : Int) (i r : Nat) :
    (if i + 1 < r then v else if i + 1 = r then v else ro0) = if i < r then v else ro0 := by
  split_ifs <;> first | rfl | omega

theorem fromDebugLoop_chunks (bb : SB) (r w : Nat)
    (hr : bb.roffset = (r : Int)) (hw : bb.woffset = (w : Int))
    (hrn : r ≤ bb.store.length) (hwn : w ≤ bb.store.length)
    (hex : r = bb.store.length → w = bb.store.length)
    (hbytes : ∀ b ∈ bb.store, b < 256) :
    ∀ (bytes : List Nat), ∀ (i : Nat) (store : List Nat) (ro0 wo0 : Int) (hr0 hw0 hl0 : Bool),
      bytes = bb.store.drop i → i + bytes.length = bb.store.length →
      (i < r → hr0 = false) → (i < w → hw0 = false) →
      (i < bb.store.length → hl0 = false) →
      fromDebugLoop false (toDebugChunks bb bytes i) store ro0 wo0 i false hr0 hw0 hl0 =
        .ok (writeList store i bytes,
          (if i < r then (r : Int) else ro0), (if i < w then (w : Int) else wo0),
          bb.store.length,
          hr0 || decide (i < r), hw0 || decide (i < w),
          hl0 || decide (i < bb.store.length)) := by
  intro bytes
  induction bytes with
  | nil =>
    intro i store ro0 wo0 hr0 hw0 hl0 hdrop hlen hhr hhw hhl
    have hin : i = bb.store.length := by
      simp only [List.length_nil] at hlen
      omega
    subst hin
    rw [toDebugChunks]
    rw [fromDebugLoop.eq_def]
    dsimp only
    simp [writeList, show ¬(bb.store.length < r) by omega,
      show ¬(bb.store.length < w) by omega, show ¬(bb.store.length < bb.store.length) by omega]
  | cons b rest ih =>
    intro i store ro0 wo0 hr0 hw0 hl0 hdrop hlen hhr hhw hhl
    have hmem : b ∈ bb.store := by
      have h1 : b ∈ bb.store.drop i := by
        rw [← hdrop]
        exact List.mem_cons_self b rest
      exact List.mem_of_mem_drop h1
    have hb : b < 256 := hbytes b hmem
    have hrest : rest = bb.store.drop (i + 1) := by
      have h1 := congrArg List.tail hdrop
      simp only [List.tail_cons] at h1
      rw [h1, List.tail_drop]
    have hlen1 : (i + 1) + rest.length = bb.store.length := by
      rw [List.length_cons] at hlen
      omega
    rw [toDebugChunks]
    rw [List.append_assoc]
    rw [fromDebugLoop_byte b hb]
    rw [fromDebugLoop_marker_pos bb r w hr hw hex (i + 1) (by omega) _ _ _ _ _ hr0 hw0 hl0
      (fun h => hhr (by omega)) (fun h => hhw (by omega)) (fun h => hhl (by omega))]
    rw [ih (i + 1) (store.set i b) _ _ _ _ _ hrest hlen1
      (fun h => by rw [hhr (by omega)]; simp [show ¬(i + 1 = r) by omega])
      (fun h => by rw [hhw (by omega)]; simp [show ¬(i + 1 = w) by omega])
      (fun h => by rw [hhl (by omega)]; simp [show ¬(i + 1 = bb.store.length) by omega])]
    rw [writeList]
    rw [cursor_if_step, cursor_if_step]
    have e1 := flag_or_decide_step hr0 i r hhr
    have e2 := flag_or_decide_step hw0 i w hhw
    have e3 := flag_or_decide_step hl0 i bb.store.length hhl
    rw [e1, e2, e3]

theorem markerAt_length_pos (bb : SB) (p : Nat) (hp : 1 ≤ p) :
    (markerAt bb p).length = 1 := by
  unfold markerAt
  split_ifs <;> first | rfl | omega

theorem markerAt_length_le (bb : SB) (p : Nat) : (markerAt bb p).length ≤ 1 := by
  unfold markerAt
  split_ifs <;> simp

theorem toDebugChunks_length (bb : SB) :
    ∀ (bytes : List Nat) (i : Nat), (toDebugChunks bb bytes i).length = 3 * bytes.length := by
  intro bytes
  induction bytes with
  | nil => intro i; rfl
  | cons b rest ih =>
    intro i
    rw [toDebugChunks]
    simp only [List.length_append]
    rw [ih (i + 1), markerAt_length_pos bb (i + 1) (by omega)]
    simp [byteHex, List.length_cons]
    ring

theorem toDebug_capacity (bb : SB) :
    ((toDebug bb).length + 1) / 3 = bb.store.length := by
  rw [toDebug]
  simp only [List.length_append]
  rw [toDebugChunks_length bb bb.store 0]
  have h := markerAt_length_le bb 0
  omega

/-- C2 (amended): for every assert-mode buffer whose bytes fit a byte store
and whose cursors satisfy `0 ≤ roffset ≤ capacity`, `0 ≤ woffset ≤ capacity`
and NOT (`roffset = capacity` while `woffset ≠ capacity`) — the state that
would print the unparseable `[` marker — decoding `toDebug`'s output with
`fromDebug` reproduces the bytes and both cursor positions exactly. -/
theorem debug_roundtrip_amended (bb : SB) (r w : Nat)
    (hna : bb.noAssert = false)
    (hr : bb.roffset = (r : Int)) (hw : bb.woffset = (w : Int))
    (hrn : r ≤ bb.store.length) (hwn : w ≤ bb.store.length)
    (hbytes : ∀ b ∈ bb.store, b < 256)
    (hex : r = bb.store.length → w = bb.store.length) :
    fromDebug (toDebug bb) false = .ok bb := by
  rw [fromDebug]
  rw [toDebug_capacity bb]
  rw [toDebug]
  rw [fromDebugLoop_marker_zero bb r w hr hw hex]
  rw [fromDebugLoop_chunks bb r w hr hw hrn hwn hex hbytes bb.store 0 _ _ _ _ _ _
    (List.drop_zero bb.store).symm (by simp)
    (fun h => by simp [show ¬(0 = r) by omega])
    (fun h => by simp [show ¬(0 = w) by omega])
    (fun h => by simp [show ¬(0 = bb.store.length) by omega])]
  have hflag : ∀ k : Nat, (decide ((0 : Nat) = k) || decide (0 < k)) = true := by
    intro k
    by_cases h : k = 0
    · simp [h]
    · simp [show (0 : Nat) < k by omega]
  dsimp only
  rw [hflag r, hflag w, hflag bb.store.length]
  rw [if_neg (by simp)]
  rw [if_neg (by simp)]
  have hstore : writeList (List.replicate bb.store.length 0) 0 bb.store = bb.store := by
    have h := writeList_drop bb.store (List.replicate bb.store.length 0) 0 (by simp)
    simpa using h
  rw [hstore]
  have hro : (if 0 < r then (r : Int) else if 0 = r then (r : Int) else 0) = (r : Int) := by
    split_ifs <;> first | rfl | omega
  have hwo : (if 0 < w then (w : Int) else if 0 = w then (w : Int) else 0) = (w : Int) := by
    split_ifs <;> first | rfl | omega
  rw [hro, hwo, ← hr, ← hw, ← hna]

/-- Witness for the amended C2 round-trip at a concrete two-byte state. -/
theorem debug_roundtrip_amended_witness :
    fromDebug (toDebug (SB.mk [171, 5] 1 2 false)) false = .ok (SB.mk [171, 5] 1 2 false) :=
  debug_roundtrip_amended (SB.mk [171, 5] 1 2 false) 1 2 rfl rfl rfl
    (by norm_num) (by norm_num) (by decide) (fun h => by simp at h)

/-- C7 counterexample: `fromDebug("<61 62 00>")` does NOT succeed — the
string sets `roffset` (via `<`) and `woffset` (via `>`) but never a limit
marker, so the final assert-mode check throws "Missing roffset or woffset or
limit". -/
theorem fromDebug_requires_limit_marker :
    fromDebug ['<', '6', '1', ' ', '6', '2', ' ', '0', '0', '>'] false =
      .error (.rangeError "Missing roffset or woffset or limit") := by
  rfl

/-- C7 (amended): the nearest succeeding debug string pads the bytes out to
the derived capacity `((13 + 1) / 3) | 0 = 4` and carries a limit marker:
`fromDebug("<61 62 00>00*")` yields the 4-byte store `61 62 00 00` with
`roffset = 0` and `woffset = 3`. -/
theorem fromDebug_padded_example :
    fromDebug ['<', '6', '1', ' ', '6', '2', ' ', '0', '0', '>', '0', '0', '*'] false =
      .ok (SB.mk [0x61, 0x62, 0, 0] 0 3 false) := by
  rfl

/-- C2 counterexample: the state with store `[00]`, `roffset = 1` (= capacity)
and `woffset = 0` prints as `">00["`, and `fromDebug` has no case for the
`[` marker: the character lands in the hex-pair branch right after a byte
(require-symbol is set), so decoding throws "Invalid symbol" — the
round-trip fails on a marker `toDebug` itself emitted. -/
theorem toDebug_bracket_not_parseable :
    toDebug (SB.mk [0] 1 0 false) = ['>', '0', '0', '['] ∧
    fromDebug (toDebug (SB.mk [0] 1 0 false)) false =
      .error (.rangeError "Invalid symbol") := by
  constructor <;> rfl

end SmartBufferSpec

